import Mathlib

/-!
# Verification of the FinancialIntelligentAssistant core

Shallow embedding, in Lean 4, of the algorithmic core of the repository:

* `rag_system/agent/entity_extractor.py` (entity extraction, parameter repair),
* `rag_system/agent/unified_agent.py` (plan validation, dependency resolution,
  step execution with retry),
* `rag_system/retriever/rag_retriever.py` (hybrid retrieval),
* `mcp/mcp_tools.py` (work-order creation against the SQLite store).

Python dynamic values are modelled by `PyVal` (strings, integers, `None`),
Python dicts by insertion-ordered association lists, exceptions by `Except`,
and `datetime.now()` by an explicit `PyDate` parameter.  String operations
(`upper`, `strip`, `\d` in regexes, `\w` word characters) are modelled over
ASCII plus the CJK range, which covers every string the repository
manipulates.
-/

namespace FinAssist

/-- The decimal digit character for `k % 10`. -/
def digCh (k : Nat) : Char := Char.ofNat (48 + k % 10)

/-- Decimal digits of a natural number, most significant first
(`fuel` bounds the number of digits; recursion is structural on it so
that concrete values reduce in the kernel). -/
def natToCharsAux : Nat → Nat → List Char
  | 0, _ => []
  | fuel + 1, n =>
      if n < 10 then [digCh n] else natToCharsAux fuel (n / 10) ++ [digCh (n % 10)]

/-- Decimal digits of a natural number (most significant first). -/
def natToChars (n : Nat) : List Char := natToCharsAux (n + 1) n

/-- Python `str(n)` for a natural number. -/
def natToStr (n : Nat) : String := ⟨natToChars n⟩

/-- Python `str(n)` for an integer. -/
def intToStr (n : Int) : String :=
  if n < 0 then "-" ++ natToStr n.natAbs else natToStr n.natAbs

/-- A Python runtime value as used by the agent's argument dictionaries:
a string, an integer, or `None`. -/
inductive PyVal where
  | str (s : String)
  | int (n : Int)
  | none
  deriving DecidableEq, Repr

/-- Python truthiness for the values of `PyVal`. -/
def PyVal.truthy : PyVal → Bool
  | .str s => s ≠ ""
  | .int n => n ≠ 0
  | .none => false

/-- Python `str()` of a `PyVal`. -/
def PyVal.toStr : PyVal → String
  | .str s => s
  | .int n => intToStr n
  | .none => "None"

/-- A Python dict with string keys, as an insertion-ordered association
list.  All operations act on the first occurrence of a key, matching
Python dicts (whose keys are unique). -/
abbrev PyDict := List (String × PyVal)

/-- `d.get(k)`: the value of the first binding of `k`, if any. -/
def dGet? (d : PyDict) (k : String) : Option PyVal :=
  (d.find? (fun p => p.1 = k)).map (fun p => p.2)

/-- `k in d`. -/
def dMem (d : PyDict) (k : String) : Bool :=
  (d.find? (fun p => p.1 = k)).isSome

/-- `d[k] = v`: replace the first binding of `k` in place, else append. -/
def dSet (d : PyDict) (k : String) (v : PyVal) : PyDict :=
  match d with
  | [] => [(k, v)]
  | (k', v') :: rest =>
      if k' = k then (k, v) :: rest else (k', v') :: dSet rest k v

/-- `del d[k]`: remove the binding of `k`. -/
def dDel (d : PyDict) (k : String) : PyDict :=
  d.filter (fun p => ¬ p.1 = k)

/-- Truthiness of `d.get(k)` (a missing key reads as `None`, falsy). -/
def dTruthy (d : PyDict) (k : String) : Bool :=
  match dGet? d k with
  | some v => v.truthy
  | Option.none => false

/-- Python `str.upper()` (ASCII case mapping; CJK characters unaffected). -/
def pyUpper (s : String) : String := ⟨s.data.map Char.toUpper⟩

/-- Python `str.lower()` (ASCII case mapping; CJK characters unaffected). -/
def pyLower (s : String) : String := ⟨s.data.map Char.toLower⟩

/-- ASCII whitespace, as stripped by Python `str.strip()`. -/
def isSpaceCh (c : Char) : Bool :=
  c = ' ' || c = '\t' || c = '\n' || c = '\r' || c = '\x0b' || c = '\x0c'

/-- Python `str.strip()` with no argument (drop surrounding whitespace). -/
def pyStrip (s : String) : String :=
  ⟨((s.data.dropWhile isSpaceCh).reverse.dropWhile isSpaceCh).reverse⟩

/-- Decidable list-prefix test. -/
def isPre [DecidableEq α] : List α → List α → Bool
  | [], _ => true
  | _ :: _, [] => false
  | a :: as, b :: bs => a = b && isPre as bs

/-- Decidable list-infix (contiguous sublist) test. -/
def isInf [DecidableEq α] (pat : List α) : List α → Bool
  | [] => isPre pat []
  | b :: bs => isPre pat (b :: bs) || isInf pat bs

/-- Python `pat in s` substring containment. -/
def strContains (s pat : String) : Bool := isInf pat.data s.data

/-- Lexicographic strict comparison of char lists (Python `str <`,
comparing code points). -/
def strLtChars : List Char → List Char → Bool
  | [], [] => false
  | [], _ :: _ => true
  | _ :: _, [] => false
  | a :: as, b :: bs => if a < b then true else if b < a then false else strLtChars as bs

/-- Python `a <= b` on strings. -/
def strLe (a b : String) : Bool := ¬ strLtChars b.data a.data

/-- Python `s.startswith(pre)`. -/
def strStartsWith (s pre : String) : Bool := isPre pre.data s.data

/-! ## Dates

`datetime` arithmetic is embedded with explicit Gregorian rules; the
current date (`datetime.now()`) is passed in as a parameter. -/

/-- A calendar date, standing in for Python `datetime` values. -/
structure PyDate where
  year : Nat
  month : Nat
  day : Nat
  deriving DecidableEq, Repr

/-- Gregorian leap-year rule. -/
def isLeapYear (y : Nat) : Bool :=
  y % 4 = 0 && (y % 100 ≠ 0 || y % 400 = 0)

/-- Number of days of month `m` of year `y` (Gregorian). -/
def daysInMonth (y m : Nat) : Nat :=
  if m = 2 then (if isLeapYear y then 29 else 28)
  else if m = 4 ∨ m = 6 ∨ m = 9 ∨ m = 11 then 30
  else 31

/-- `d - timedelta(days=1)`: the previous calendar day. -/
def predDay (d : PyDate) : PyDate :=
  if d.day > 1 then ⟨d.year, d.month, d.day - 1⟩
  else if d.month > 1 then ⟨d.year, d.month - 1, daysInMonth d.year (d.month - 1)⟩
  else ⟨d.year - 1, 12, 31⟩

/-- Zero-padded two-digit rendering, as Python `f"{n:02d}"` for `n < 100`. -/
def pad2 (n : Nat) : String :=
  if n < 10 then "0" ++ natToStr n else natToStr n

/-! ## Entity extractor (`rag_system/agent/entity_extractor.py`) -/

/-- `DateRangeEntity` from `entity_extractor.py`. -/
structure DateRangeEntity where
  start_date : Option String := Option.none
  end_date : Option String := Option.none
  month : Option Nat := Option.none
  year : Option Nat := Option.none
  deriving DecidableEq, Repr

/-- `EmployeeEntity` from `entity_extractor.py`. -/
structure EmployeeEntity where
  name : Option String := Option.none
  employee_id : Option String := Option.none
  department : Option String := Option.none
  deriving DecidableEq, Repr

/-- ASCII digit test, modelling `\d` for the digit strings the
extractor handles. -/
def isDig (c : Char) : Bool := c.isDigit

/-- Numeric value of a digit string, as Python `int(...)`. -/
def natOfDigits (l : List Char) : Nat :=
  l.foldl (fun acc c => acc * 10 + (c.toNat - '0'.toNat)) 0

/-- `re.search(r'(\d+)月份?', text)`: the leftmost match of a digit run
directly followed by `月`; returns the digits of capture group 1.  The
leftmost match of this pattern is the maximal digit run immediately
preceding the first `月` that has a digit just before it. -/
def findMonthRun (run : List Char) : List Char → Option (List Char)
  | [] => Option.none
  | c :: rest =>
      if c = '月' then
        if run.isEmpty then findMonthRun [] rest else some run.reverse
      else if isDig c then findMonthRun (c :: run) rest
      else findMonthRun [] rest

/-- The branches of `extract_date_range` that follow its month-pattern
branch: half-year phrases, "上个月"/"上月", "本月"/"这个月", else the
all-null entity. -/
def extractDateRangeRest (now : PyDate) (text : String) : DateRangeEntity :=
  let current_year := now.year
  let current_month := now.month
  if strContains text "上半年" ∨ strContains text "前半年" then
    { start_date := some (natToStr current_year ++ "-01-01"),
      end_date := some (natToStr current_year ++ "-06-30") }
  else if strContains text "下半年" ∨ strContains text "后半年" then
    { start_date := some (natToStr current_year ++ "-07-01"),
      end_date := some (natToStr current_year ++ "-12-31") }
  else if strContains text "上个月" ∨ strContains text "上月" then
    let last_month := if current_month = 1 then 12 else current_month - 1
    let last_year := if current_month = 1 then current_year - 1 else current_year
    let first_day_this_month : PyDate := ⟨current_year, current_month, 1⟩
    let last_day_last_month := (predDay first_day_this_month).day
    { month := some last_month, year := some last_year,
      start_date := some (natToStr last_year ++ "-" ++ pad2 last_month ++ "-01"),
      end_date := some (natToStr last_year ++ "-" ++ pad2 last_month ++ "-"
        ++ natToStr last_day_last_month) }
  else if strContains text "本月" ∨ strContains text "这个月" then
    let end_date :=
      if current_month = 12 then
        natToStr current_year ++ "-12-31"
      else
        let next_month : PyDate := ⟨current_year, current_month + 1, 1⟩
        natToStr current_year ++ "-" ++ pad2 current_month ++ "-"
          ++ natToStr (predDay next_month).day
    { month := some current_month, year := some current_year,
      start_date := some (natToStr current_year ++ "-" ++ pad2 current_month ++ "-01"),
      end_date := some end_date }
  else {}

/-- `EntityExtractor.extract_date_range`, with `datetime.now()` passed
in as `now`.  Mirrors the source branch for "X月份" (falling through to
the later branches when the matched month is out of range), then the
remaining branches via `extractDateRangeRest`. -/
def extract_date_range (now : PyDate) (text : String) : DateRangeEntity :=
  let current_year := now.year
  match findMonthRun [] text.data with
  | some digits =>
      let month := natOfDigits digits
      if 1 ≤ month ∧ month ≤ 12 then
        let start_date := natToStr current_year ++ "-" ++ pad2 month ++ "-01"
        let end_date :=
          if month = 12 then
            natToStr current_year ++ "-12-31"
          else
            let next_month : PyDate := ⟨current_year, month + 1, 1⟩
            let last_day := (predDay next_month).day
            natToStr current_year ++ "-" ++ pad2 month ++ "-" ++ natToStr last_day
        { month := some month, year := some current_year,
          start_date := some start_date, end_date := some end_date }
      else extractDateRangeRest now text
  | Option.none => extractDateRangeRest now text

/-! ### `extract_employee` -/

/-- The fixed surname whitelist of the name regex in
`extract_employee` (its leading character class), verbatim. -/
def surnameChars : List Char :=
  "张李王刘陈杨黄赵吴周徐孙马朱胡郭何高林罗郑梁谢宋唐许韩冯邓曹彭曾肖田董袁潘于蒋蔡余杜叶程苏魏吕丁任沈姚卢姜崔钟谭陆汪范金石廖贾夏韦付方白邹孟熊秦邱江尹薛闫段雷侯龙史陶黎贺顾毛郝龚邵万钱严覃武戴莫孔向汤".data

/-- The Chinese-numeral character class of the name regex, verbatim. -/
def numeralChars : List Char :=
  "一二三四五六七八九十百千万亿兆零壹贰叁肆伍陆柒捌玖拾佰仟万亿兆".data

/-- The CJK range `[一-龥]` (U+4E00 – U+9FA5). -/
def isHan (c : Char) : Bool := 0x4e00 ≤ c.toNat && c.toNat ≤ 0x9fa5

/-- ASCII letter. -/
def isAsciiLetter (c : Char) : Bool := c.isAlpha

/-- A word character for `\b` in Python `re` (with Unicode semantics,
CJK characters are word characters): ASCII alphanumerics, underscore,
or a CJK character. -/
def isWordCh (c : Char) : Bool := c.isAlphanum || c = '_' || isHan c

/-- One attempted match of `E\d{3,}\b` (case-insensitive) at the head
of `l`; `\b` before the `E` has already been checked by the caller.
Greedy `\d{3,}` with backtracking succeeds only when the full digit run
has length ≥ 3 and is followed by a non-word character or the end. -/
def idTry (l : List Char) : Option (List Char) :=
  match l with
  | c :: rest =>
      if c = 'E' ∨ c = 'e' then
        let digits := rest.takeWhile isDig
        let after := rest.drop digits.length
        if digits.length ≥ 3 ∧ (after = [] ∨ ¬ isWordCh (after.headD ' ')) then
          some (c :: digits)
        else Option.none
      else Option.none
  | [] => Option.none

/-- `re.search(r'\bE\d{3,}\b', text, re.IGNORECASE)`: scan for the
leftmost match, tracking whether the previous character was a word
character (for the leading `\b`). -/
def idSearch (prevIsWord : Bool) : List Char → Option (List Char)
  | [] => Option.none
  | c :: rest =>
      match (if prevIsWord then Option.none else idTry (c :: rest)) with
      | some m => some m
      | Option.none => idSearch (isWordCh c) rest

/-- One attempted match, at the head of `l`, of the tail of the name
regex `(?:[numerals]+|[a-zA-Z]+|[一-龥]{1,3})`, alternatives in regex
order (greedy runs; the CJK alternative takes at most 3 characters). -/
def nameTailTry (l : List Char) : Option (List Char) :=
  match l with
  | [] => Option.none
  | c :: _ =>
      if numeralChars.contains c then some (l.takeWhile (numeralChars.contains ·))
      else if isAsciiLetter c then some (l.takeWhile isAsciiLetter)
      else if isHan c then some ((l.takeWhile isHan).take 3)
      else Option.none

/-- `re.search` for the surname-based name pattern: leftmost position
whose character is a whitelisted surname followed by a nonempty tail
match. -/
def nameSearch : List Char → Option (List Char)
  | [] => Option.none
  | c :: rest =>
      if surnameChars.contains c then
        match nameTailTry rest with
        | some tail => some (c :: tail)
        | Option.none => nameSearch rest
      else nameSearch rest

/-- The inner scan of `re.search(r'(.+?)(?:部|部门)', text)` at one
start position: find the first later `部`, failing on a newline (which
`.` cannot match); returns capture group 1. -/
def deptScan (acc : List Char) : List Char → Option (List Char)
  | [] => Option.none
  | c :: rest =>
      if c = '部' then some acc.reverse
      else if c = '\n' then Option.none
      else deptScan (c :: acc) rest

/-- One attempted match of `(.+?)(?:部|部门)` at the head of `l`:
the non-greedy group takes at least one character. -/
def deptTry (l : List Char) : Option (List Char) :=
  match l with
  | [] => Option.none
  | c :: rest => if c = '\n' then Option.none else deptScan [c] rest

/-- `re.search(r'(.+?)(?:部|部门)', text)`: leftmost start position
with a successful match; returns capture group 1. -/
def deptSearch : List Char → Option (List Char)
  | [] => Option.none
  | c :: rest =>
      match deptTry (c :: rest) with
      | some g => some g
      | Option.none => deptSearch rest

/-- The `current_user` mapping of the extractor's user context.  `none`
models an absent (or falsy) `user_context`/`current_user`. -/
structure CurrentUser where
  name : Option String := Option.none
  employee_id : Option String := Option.none
  department : Option String := Option.none
  deriving DecidableEq, Repr

/-- The pattern-matching part of `extract_employee`: the employee-ID
pattern (uppercased, and suppressing name extraction), the
surname-based name pattern (kept only at length 2–4), and the
department suffix pattern. -/
def extractEmployeePatterns (text : String) : EmployeeEntity :=
  let idMatch := (idSearch false text.data).map (fun m => pyUpper ⟨m⟩)
  let nameVal :=
    match idMatch, nameSearch text.data with
    | Option.none, some m =>
        if 2 ≤ m.length ∧ m.length ≤ 4 then some (String.mk m) else Option.none
    | _, _ => Option.none
  let deptVal := (deptSearch text.data).map (fun g => String.mk g ++ "部")
  { employee_id := idMatch, name := nameVal, department := deptVal }

/-- `EntityExtractor.extract_employee`: if the text mentions the
first-person pronoun and a current user is configured, substitute the
context identity; otherwise run the three patterns. -/
def extract_employee (user_context : Option CurrentUser) (text : String) :
    EmployeeEntity :=
  if (strContains text "我" ∨ strContains text "我的") ∧ user_context.isSome then
    match user_context with
    | some cu =>
        { name := cu.name, employee_id := cu.employee_id,
          department := cu.department }
    | Option.none => extractEmployeePatterns text
  else
    extractEmployeePatterns text

/-! ### `ParameterValidator._parse_date`

`re.match(r'\d{4}-\d{2}-\d{2}', s)` is a prefix match; the fallback
tries `datetime.strptime` with the formats `%Y-%m-%d`, `%Y/%m/%d`,
`%Y年%m月%d日` in order.  CPython's `strptime` matches `%Y` as exactly
four digits, `%m` as `1[0-2]|0[1-9]|[1-9]`, `%d` as
`3[01]|[12]\d|0[1-9]|[1-9]`, requires the whole string to be consumed,
and then validates the calendar date. -/

/-- Prefix match of `\d{4}-\d{2}-\d{2}`. -/
def matchesYMDPrefix (s : String) : Bool :=
  match s.data with
  | a :: b :: c :: d :: h1 :: e :: f :: h2 :: g :: h :: _ =>
      isDig a && isDig b && isDig c && isDig d && h1 = '-' &&
      isDig e && isDig f && h2 = '-' && isDig g && isDig h
  | _ => false

/-- The `%d` day field followed by the trailing literal `suffix` and
end of input, with regex alternative order (two-digit forms before the
single-digit form) and backtracking. -/
def parseDayEnd (l suffix : List Char) : Option Nat :=
  match l with
  | d1 :: d2 :: rest =>
      if isDig d1 ∧ isDig d2 ∧ rest = suffix then
        let v := natOfDigits [d1, d2]
        if (30 ≤ v ∧ v ≤ 31) ∨ (10 ≤ v ∧ v ≤ 29) ∨ (1 ≤ v ∧ v ≤ 9) then some v
        else if isDig d1 ∧ natOfDigits [d1] ≥ 1 ∧ d2 :: rest = suffix then
          some (natOfDigits [d1])
        else Option.none
      else if isDig d1 ∧ natOfDigits [d1] ≥ 1 ∧ d2 :: rest = suffix then
        some (natOfDigits [d1])
      else Option.none
  | [d1] =>
      if isDig d1 ∧ natOfDigits [d1] ≥ 1 ∧ suffix = [] then some (natOfDigits [d1])
      else Option.none
  | [] => Option.none

/-- The `%m` month field, the separator `sep2`, then the day field:
two-digit month alternatives are tried before the single-digit one,
backtracking into the rest of the pattern. -/
def parseMonthRest (l : List Char) (sep2 : Char) (suffix : List Char) :
    Option (Nat × Nat) :=
  let oneDigit :=
    match l with
    | m1 :: rest =>
        if isDig m1 ∧ natOfDigits [m1] ≥ 1 then
          match rest with
          | c :: rest' =>
              if c = sep2 then (parseDayEnd rest' suffix).map (fun d => (natOfDigits [m1], d))
              else Option.none
          | [] => Option.none
        else Option.none
    | [] => Option.none
  match l with
  | m1 :: m2 :: rest =>
      if isDig m1 ∧ isDig m2 ∧
          (let v := natOfDigits [m1, m2]; (10 ≤ v ∧ v ≤ 12) ∨ (1 ≤ v ∧ v ≤ 9)) then
        match rest with
        | c :: rest' =>
            if c = sep2 then
              match (parseDayEnd rest' suffix).map (fun d => (natOfDigits [m1, m2], d)) with
              | some r => some r
              | Option.none => oneDigit
            else oneDigit
        | [] => oneDigit
      else oneDigit
  | _ => oneDigit

/-- `datetime.strptime(s, fmt)` for one of the three formats, given the
two separators and trailing literal, followed by the calendar-validity
check performed by the `datetime` constructor. -/
def strpDate (s : String) (sep1 sep2 : Char) (suffix : List Char) :
    Option (Nat × Nat × Nat) :=
  match s.data with
  | y1 :: y2 :: y3 :: y4 :: c :: rest =>
      if isDig y1 ∧ isDig y2 ∧ isDig y3 ∧ isDig y4 ∧ c = sep1 then
        let y := natOfDigits [y1, y2, y3, y4]
        match parseMonthRest rest sep2 suffix with
        | some (m, d) =>
            if 1 ≤ y ∧ 1 ≤ d ∧ d ≤ daysInMonth y m then some (y, m, d)
            else Option.none
        | Option.none => Option.none
      else Option.none
  | _ => Option.none

/-- `dt.strftime('%Y-%m-%d')`: `%Y` unpadded (glibc), `%m`/`%d`
zero-padded. -/
def fmtYMD (y m d : Nat) : String :=
  natToStr y ++ "-" ++ pad2 m ++ "-" ++ pad2 d

/-- The string-level core of `_parse_date`: prefix regex first, then
the known formats in order, else the original string unchanged. -/
def parseDateStr (s : String) : String :=
  if matchesYMDPrefix s then s
  else
    match strpDate s '-' '-' [] with
    | some (y, m, d) => fmtYMD y m d
    | Option.none =>
        match strpDate s '/' '/' [] with
        | some (y, m, d) => fmtYMD y m d
        | Option.none =>
            match strpDate s '年' '月' ['日'] with
            | some (y, m, d) => fmtYMD y m d
            | Option.none => s

/-- A Python exception escaping the embedded code. -/
inductive PyExc where
  | typeError (msg : String)
  | fileNotFound (msg : String)
  | otherExc (msg : String)
  deriving DecidableEq, Repr

/-- `ParameterValidator._parse_date`.  A falsy argument is returned
unchanged; a truthy non-string reaches `re.match`, which raises
`TypeError` (the call is outside the `try` block); a truthy string goes
through `parseDateStr`. -/
def parse_date (v : PyVal) : Except PyExc PyVal :=
  if ¬ v.truthy then .ok v
  else
    match v with
    | .str s => .ok (.str (parseDateStr s))
    | _ => .error (.typeError "expected string or bytes-like object")

/-! ### `ParameterValidator.validate_and_fix_params`

The function's first statement is `fixed_params = params.copy()`; every
subsequent write targets the copy.  To make the frame property
expressible, the embedding threads both objects: `callerParams` is the
dict object the caller passed in, `fixed` is the copy. -/

/-- The two dict objects live during `validate_and_fix_params`. -/
structure VFState where
  callerParams : PyDict
  fixed : PyDict
  deriving DecidableEq, Repr

/-- The `query_employee_info` branch, acting on `fixed_params`. -/
def vfpEmployeeInfo (fp : PyDict) : PyDict :=
  if dTruthy fp "employee_id" then
    let emp_id := pyUpper (pyStrip ((dGet? fp "employee_id").getD PyVal.none).toStr)
    if ¬ strStartsWith emp_id "E" then
      if ¬ dTruthy fp "name" then
        dDel (dSet fp "name" (.str emp_id)) "employee_id"
      else fp
    else dSet fp "employee_id" (.str emp_id)
  else fp

/-- The reimbursement-tools branch, acting on `fixed_params`. -/
def vfpReimbursement (now : PyDate) (fp : PyDict) (context : PyDict) :
    Except PyExc PyDict := do
  let fp :=
    if ¬ dTruthy fp "employee_id" then
      if dMem context "employee_id" then
        dSet fp "employee_id" ((dGet? context "employee_id").getD PyVal.none)
      else fp
    else fp
  let fp ←
    if dTruthy fp "start_date" then do
      let v ← parse_date ((dGet? fp "start_date").getD PyVal.none)
      pure (dSet fp "start_date" v)
    else pure fp
  let fp ←
    if dTruthy fp "end_date" then do
      let v ← parse_date ((dGet? fp "end_date").getD PyVal.none)
      pure (dSet fp "end_date" v)
    else pure fp
  let sdStr := ((dGet? fp "start_date").getD (PyVal.str "")).toStr
  if strContains sdStr "month" ∨ strContains sdStr "月" then
    let date_range := extract_date_range now sdStr
    let fp :=
      match date_range.start_date with
      | some s => dSet fp "start_date" (.str s)
      | Option.none => fp
    let fp :=
      match date_range.end_date with
      | some e => dSet fp "end_date" (.str e)
      | Option.none => fp
    pure fp
  else pure fp

/-- The `create_work_order` branch, acting on `fixed_params`. -/
def vfpWorkOrder (fp : PyDict) (context : PyDict) : PyDict :=
  if dMem fp "assignee_id" then
    let assignee_id := pyUpper (pyStrip ((dGet? fp "assignee_id").getD PyVal.none).toStr)
    if strStartsWith assignee_id "E" then
      dSet fp "assignee_id" (.str assignee_id)
    else if dMem context "assignee_id" then
      dSet fp "assignee_id" ((dGet? context "assignee_id").getD PyVal.none)
    else fp
  else fp

/-- `ParameterValidator.validate_and_fix_params`, returning both dict
objects.  `now` stands for `datetime.now()` inside the entity
extractor; `context or {}` is the identity for the lookups performed
here, so `context` is taken directly. -/
def validateAndFixParamsState (now : PyDate) (tool_name : String)
    (params : PyDict) (context : PyDict) : Except PyExc VFState := do
  let fixed_params := params
  let fixed_params ←
    if tool_name = "query_employee_info" then
      pure (vfpEmployeeInfo fixed_params)
    else if tool_name = "query_reimbursement_summary" ∨
        tool_name = "query_reimbursement_records" ∨
        tool_name = "query_reimbursement_status" then
      vfpReimbursement now fixed_params context
    else if tool_name = "create_work_order" then
      pure (vfpWorkOrder fixed_params context)
    else pure fixed_params
  return { callerParams := params, fixed := fixed_params }

/-- `validate_and_fix_params`: the returned (possibly repaired)
argument dict. -/
def validate_and_fix_params (now : PyDate) (tool_name : String)
    (params : PyDict) (context : PyDict) : Except PyExc PyDict :=
  (validateAndFixParamsState now tool_name params context).map (·.fixed)

/-! ## Unified agent (`rag_system/agent/unified_agent.py`) -/

/-- The names registered in `self.tool_map` by `_create_tools`. -/
def toolNames : List String :=
  ["rag_search", "query_employee_info", "query_reimbursement_status",
   "query_reimbursement_summary", "query_reimbursement_records",
   "create_work_order", "send_email"]

/-- `self.tool_dependencies` from `UnifiedFinancialAgent.__init__`. -/
def tool_dependencies : List (String × List String) :=
  [("query_reimbursement_summary", ["query_employee_info"]),
   ("query_reimbursement_status", ["query_employee_info"]),
   ("query_reimbursement_records", ["query_employee_info"]),
   ("create_work_order", ["query_employee_info"]),
   ("send_email", ["query_employee_info"])]

/-- `graph.get(tool, [])`. -/
def depsOf (g : List (String × List String)) (t : String) : List String :=
  ((g.find? (fun p => p.1 = t)).map (fun p => p.2)).getD []

/-- One plan step, an LLM-authored dict with the fields the agent
reads. -/
structure PStep where
  tool_name : Option String := Option.none
  arguments : PyDict := []
  step_id : Nat := 0
  reason : Option String := Option.none
  deriving DecidableEq, Repr

/-- `set.add` on a list-modelled set. -/
def setAdd [DecidableEq α] (l : List α) (a : α) : List α :=
  if a ∈ l then l else l ++ [a]

/-- `sorted(arguments.items())`: stable sort of the bindings by key
(keys are unique in a Python dict, so values are never compared).
Python's sort is stable, and a stable sort's output is unique, so any
stable sorting algorithm embeds it; insertion sort is used because it
reduces in the kernel. -/
def sortByKey (d : PyDict) : PyDict :=
  d.insertionSort (fun a b => strLe a.1 b.1)

/-- Truthiness of an optional value (Python `None` when absent). -/
def pyTruthyO : Option PyVal → Bool
  | some v => v.truthy
  | Option.none => false

/-- The in-progress state of `_validate_and_fix_plan`: the issue log,
the `executed_tools` set, the repaired step list, and the `seen_steps`
dedup set (keyed by tool name and sorted arguments, standing for
Python's `str(sorted(...))` key). -/
structure PVState where
  issues : List String := []
  executed_tools : List String := []
  fixed_steps : List PStep := []
  seen_steps : List (String × PyDict) := []
  deriving Repr

/-- The `query_employee_info` step synthesized by
`_validate_and_fix_plan` when a dependent step lacks its lookup. -/
def synthQeiStep (nameVal : PyVal) (tool_name : String) (idx : Nat) : PStep :=
  { step_id := idx + 1,
    tool_name := some "query_employee_info",
    arguments := [("name", nameVal)],
    reason := some ("获取员工工号，为 " ++ tool_name ++ " 做准备") }

/-- The dependency loop of `_validate_and_fix_plan` for one step: for
each unmet static dependency, synthesize a `query_employee_info` step
when the intent entities carry an employee name without an id and no
earlier repaired step already queries that name. -/
def pvDeps (entities : PyDict) (tool_name : String) (st : PVState) : PVState :=
  (depsOf tool_dependencies tool_name).foldl (fun st dep =>
    if dep ∈ st.executed_tools then st
    else if dep = "query_employee_info" then
      let employee_name := dGet? entities "employee_name"
      let employee_id := dGet? entities "employee_id"
      if pyTruthyO employee_name ∧ ¬ pyTruthyO employee_id then
        let nameVal := employee_name.getD PyVal.none
        let has_employee_query := st.fixed_steps.any (fun s =>
          s.tool_name = some "query_employee_info" ∧
          (dGet? s.arguments "name").getD PyVal.none = nameVal)
        if ¬ has_employee_query then
          { st with
            fixed_steps := st.fixed_steps ++
              [synthQeiStep nameVal tool_name st.fixed_steps.length],
            executed_tools := setAdd st.executed_tools "query_employee_info",
            issues := st.issues ++
              ["自动添加依赖步骤: query_employee_info (为 " ++ tool_name ++ " 准备)"] }
        else st
      else st
    else st) st

/-- The body of `_validate_and_fix_plan`'s main loop for the `i`-th
input step (0-based, as in `enumerate`). -/
def pvStep (entities : PyDict) (st : PVState) (i : Nat) (step : PStep) : PVState :=
  match step.tool_name with
  | Option.none =>
      { st with issues := st.issues ++ ["步骤" ++ natToStr (i + 1) ++ "缺少工具名称"] }
  | some tool_name =>
      if tool_name ∉ toolNames then
        { st with issues := st.issues ++
            ["步骤" ++ natToStr (i + 1) ++ "使用了未知工具: " ++ tool_name] }
      else
        let step_key := (tool_name, sortByKey step.arguments)
        if step_key ∈ st.seen_steps then
          { st with issues := st.issues ++
              ["步骤" ++ natToStr (i + 1) ++ "与之前的步骤重复: " ++ tool_name] }
        else
          let st := { st with seen_steps := setAdd st.seen_steps step_key }
          let st := pvDeps entities tool_name st
          let st :=
            if tool_name = "query_reimbursement_summary" ∧
                ¬ dMem step.arguments "employee_id" ∧ ¬ dMem step.arguments "name" then
              { st with issues := st.issues ++
                  ["步骤" ++ natToStr (i + 1) ++ " (" ++ tool_name ++
                   ") 缺少必需参数: employee_id 或 name"] }
            else st
          { st with fixed_steps := st.fixed_steps ++ [step],
                    executed_tools := setAdd st.executed_tools tool_name }

/-- `UnifiedFinancialAgent._validate_and_fix_plan`.  The plan is its
step list; the intent is represented by its `entities` mapping (the
only part the function reads).  Returns the repaired, renumbered steps
together with the recorded issues. -/
def validate_and_fix_plan (entities : PyDict) (steps : List PStep) :
    List PStep × List String :=
  if steps = [] then (steps, [])
  else
    let st := steps.enum.foldl (fun st p => pvStep entities st p.1 p.2) {}
    (st.fixed_steps.enum.map (fun p => { p.2 with step_id := p.1 + 1 }), st.issues)

/-! ### `_resolve_dependencies`

The inner `_resolve` recursion is guarded only by the `visited` set.
The embedding makes the recursion fuel-indexed (`Option.none` =
out of fuel); the top-level wrapper supplies fuel exceeding the number
of names occurring in the graph, and the termination claim is that the
out-of-fuel branch is unreachable for every graph, cyclic ones
included. -/

/-- All tool names occurring in a dependency graph. -/
def univNames (g : List (String × List String)) : List String :=
  g.map (fun p => p.1) ++ (g.map (fun p => p.2)).flatten

mutual
/-- `_resolve(tool)` with fuel. -/
def rgoF (g : List (String × List String)) :
    Nat → String → List String → List String → Option (List String × List String)
  | 0, _, _, _ => Option.none
  | fuel + 1, tool, visited, resolved =>
      if tool ∈ visited then some (visited, resolved)
      else
        let visited := visited ++ [tool]
        match rgoListF g fuel (depsOf g tool) visited resolved with
        | some (v, r) => some (v, if tool ∈ r then r else r ++ [tool])
        | Option.none => Option.none
termination_by fuel _ _ _ => (fuel, 0)
/-- The `for dep in tool_deps` loop inside `_resolve`, appending each
dep to `resolved` after its recursive resolution. -/
def rgoListF (g : List (String × List String)) :
    Nat → List String → List String → List String → Option (List String × List String)
  | _, [], visited, resolved => some (visited, resolved)
  | fuel, dep :: rest, visited, resolved =>
      match rgoF g fuel dep visited resolved with
      | some (v, r) => rgoListF g fuel rest v (if dep ∈ r then r else r ++ [dep])
      | Option.none => Option.none
termination_by fuel deps _ _ => (fuel, deps.length + 1)
end

/-- `UnifiedFinancialAgent._resolve_dependencies`: resolve each direct
dependency of `tool_name` in order (the fuel is one more than the
number of names in the graph). -/
def resolve_dependencies (g : List (String × List String)) (tool_name : String) :
    Option (List String) :=
  let deps := depsOf g tool_name
  let fuel := (univNames g).length + 1
  (deps.foldlM (fun vr dep => rgoF g fuel dep vr.1 vr.2) (([], []) : List String × List String)).map
    (fun vr => vr.2)

/-! ### `_execute_step` and `_execute_step_with_retry` -/

/-- The outcome of invoking a registered tool callable: a returned
value or a raised exception. -/
inductive ToolOutcome where
  | ok (v : PyVal)
  | raiseTypeError (msg : String)
  | raiseFileNotFound (msg : String)
  | raiseOther (msg : String)
  deriving DecidableEq, Repr

/-- The behavior of the registered tool callables, abstracted: tool
name and (repaired) keyword arguments to outcome. -/
abbrev ToolBehavior := String → PyDict → ToolOutcome

/-- The `_normalize_identifier` closure inside `_execute_step`. -/
def normalizeIdentifier (context : PyDict) (value : PyVal) (context_key : String) :
    PyVal :=
  if ¬ dMem context context_key then value
  else if value = PyVal.none then (dGet? context context_key).getD PyVal.none
  else
    match value with
    | .str s =>
        let normalized := pyStrip s
        if normalized = "" then (dGet? context context_key).getD PyVal.none
        else if strContains (pyLower normalized) "employee_id" ∨
            strContains normalized "工号" then
          (dGet? context context_key).getD PyVal.none
        else if strStartsWith (pyUpper normalized) "E" ∧
            (normalized.data.drop 1 ≠ [] ∧ (normalized.data.drop 1).all isDig) then
          .str (pyUpper normalized)
        else value
    | _ => value

/-- Python `str.split()` with no argument: split on whitespace runs,
discarding empty pieces. -/
def pySplitWs (s : String) : List String :=
  (s.split isSpaceCh).filter (fun t => t ≠ "")

/-- The post-call scraping of a successful `query_employee_info`
result: the first line containing `工号：` populates
`context["employee_id"]` (raising `IndexError` when nothing follows
the marker), the first line containing `姓名：` populates
`context["employee_name"]`. -/
def scrapeEmployee (v : PyVal) (ctx : PyDict) : Except String PyDict :=
  let lines := (PyVal.toStr v).splitOn "\n"
  let ctx1 :=
    match lines.find? (fun l => strContains l "工号：") with
    | some line =>
        let part := (line.splitOn "工号：").getD 1 ""
        match pySplitWs (pyStrip part) with
        | [] => Except.error "list index out of range"
        | t :: _ => Except.ok (dSet ctx "employee_id" (.str t))
    | Option.none => Except.ok ctx
  match ctx1 with
  | Except.error e => Except.error e
  | Except.ok c =>
      match lines.find? (fun l => strContains l "姓名：") with
      | some line =>
          Except.ok (dSet c "employee_name"
            (.str (pyStrip ((line.splitOn "姓名：").getD 1 ""))))
      | Option.none => Except.ok c

/-- The result of `_execute_step`: the `(success, result, error)`
triple plus the context object after the call (its mutations persist
even when the step fails). -/
structure ExecOutcome where
  success : Bool
  result : Option PyVal
  error : Option String
  context : PyDict
  deriving DecidableEq, Repr

/-- The `except TypeError` arm of `_execute_step`. -/
def tyErrOutcome (m : String) (ctx : PyDict) : ExecOutcome :=
  if strContains (pyLower m) "missing" ∨ strContains (pyLower m) "required" then
    ⟨false, Option.none, some ("参数错误: " ++ m), ctx⟩
  else
    ⟨false, Option.none, some ("调用工具参数错误: " ++ m), ctx⟩

/-- `UnifiedFinancialAgent._execute_step`, with the tool callables
abstracted as `B` and `datetime.now()` (used by the parameter
validator) as `now`. -/
def execStep (now : PyDate) (B : ToolBehavior) (step : PStep) (context : PyDict) :
    ExecOutcome :=
  let tnStr := match step.tool_name with | some t => t | Option.none => "None"
  match step.tool_name with
  | Option.none => ⟨false, Option.none, some ("未知工具: " ++ tnStr), context⟩
  | some tool_name =>
    if tool_name ∉ toolNames then
      ⟨false, Option.none, some ("未知工具: " ++ tnStr), context⟩
    else
      match validate_and_fix_params now tool_name step.arguments context with
      | .error (.typeError m) => tyErrOutcome m context
      | .error (.fileNotFound m) =>
          ⟨false, Option.none, some ("数据不存在: " ++ m), context⟩
      | .error (.otherExc m) =>
          ⟨false, Option.none, some ("调用工具失败: " ++ m), context⟩
      | .ok arguments =>
        let context :=
          if tool_name = "query_employee_info" ∧ dMem arguments "name" ∧
              dTruthy arguments "name" then
            dSet context "employee_name" ((dGet? arguments "name").getD PyVal.none)
          else context
        let arguments :=
          if dMem arguments "employee_id" then
            dSet arguments "employee_id"
              (normalizeIdentifier context ((dGet? arguments "employee_id").getD PyVal.none)
                "employee_id")
          else arguments
        let arguments :=
          if dMem arguments "assignee_id" then
            dSet arguments "assignee_id"
              (normalizeIdentifier context ((dGet? arguments "assignee_id").getD PyVal.none)
                "employee_id")
          else arguments
        match B tool_name arguments with
        | .raiseTypeError m => tyErrOutcome m context
        | .raiseFileNotFound m =>
            ⟨false, Option.none, some ("数据不存在: " ++ m), context⟩
        | .raiseOther m =>
            ⟨false, Option.none, some ("调用工具失败: " ++ m), context⟩
        | .ok v =>
            if tool_name = "query_employee_info" then
              match scrapeEmployee v context with
              | Except.ok context => ⟨true, some v, Option.none, context⟩
              | Except.error m =>
                  ⟨false, Option.none, some ("调用工具失败: " ++ m), context⟩
            else ⟨true, some v, Option.none, context⟩

/-- `UnifiedFinancialAgent._fix_parameters` (mutates the step's
argument dict from the context). -/
def fixParameters (step : PStep) (_error : String) (context : PyDict) : PStep :=
  let arguments := step.arguments
  let arguments :=
    if dMem arguments "employee_id" ∧ ¬ pyTruthyO (dGet? arguments "employee_id") ∧
        dMem context "employee_id" then
      dSet arguments "employee_id" ((dGet? context "employee_id").getD PyVal.none)
    else arguments
  let arguments :=
    if dMem arguments "assignee_id" ∧ ¬ pyTruthyO (dGet? arguments "assignee_id") ∧
        dMem context "employee_id" then
      dSet arguments "assignee_id" ((dGet? context "employee_id").getD PyVal.none)
    else arguments
  { step with arguments := arguments }

/-- `UnifiedFinancialAgent._generate_suggestion` (keyed by the step's
`tool_name`, which may be absent). -/
def generateSuggestion (tool_name : Option String) (_error : String) : String :=
  if tool_name = some "query_employee_info" then "请检查员工姓名或工号是否正确"
  else if tool_name = some "query_reimbursement_summary" then
    "请确认员工工号和日期范围是否正确"
  else if tool_name = some "rag_search" then "知识库可能没有相关信息，请尝试其他关键词"
  else "请检查输入参数是否正确"

/-- The record returned by `_execute_step_with_retry`, plus the context
object after the loop. -/
structure RetryResult where
  success : Bool
  result : Option PyVal := Option.none
  error : Option String := Option.none
  suggestion : Option String := Option.none
  attempts : Nat
  context : PyDict := []
  deriving DecidableEq, Repr

/-- The retry loop of `_execute_step_with_retry`, from iteration
`attempt` on; `fuel` is the number of loop iterations still available
(`max_retries + 1 - attempt` at every call, so the `0` case is
unreachable; structural recursion on it keeps the definition
kernel-reducible).  Each level performs exactly one `_execute_step`
call. -/
def retryGo (now : PyDate) (B : ToolBehavior) (tn : Option String)
    (max_retries : Nat) :
    Nat → PStep → PyDict → Nat → RetryResult
  | 0, _, context, attempt => { success := false, attempts := attempt, context }
  | fuel + 1, step, context, attempt =>
    let r := execStep now B step context
    if r.success then
      { success := true, result := r.result, attempts := attempt + 1,
        context := r.context }
    else
      let error := r.error.getD ""
      if (strContains error "参数错误" ∨ strContains (pyLower error) "missing") ∧
          attempt < max_retries then
        retryGo now B tn max_retries fuel (fixParameters step error r.context)
          r.context (attempt + 1)
      else if strContains error "数据不存在" ∨ strContains error "不存在" then
        { success := false, error := some error,
          suggestion := some (generateSuggestion tn error),
          attempts := attempt + 1, context := r.context }
      else if attempt < max_retries then
        retryGo now B tn max_retries fuel step r.context (attempt + 1)
      else
        { success := false, error := some error, attempts := max_retries + 1,
          context := r.context }

/-- `UnifiedFinancialAgent._execute_step_with_retry` (its `max_retries`
parameter defaults to 2 at every call site). -/
def executeStepWithRetry (now : PyDate) (B : ToolBehavior) (step : PStep)
    (context : PyDict) (max_retries : Nat) : RetryResult :=
  retryGo now B step.tool_name max_retries (max_retries + 1) step context 0

/-! ## Hybrid retriever (`rag_system/retriever/rag_retriever.py`)

Scores are embedded as rationals (the length/count properties proved
here are independent of the numeric representation).  A source dict is
a structure whose `score` field merges Python's "key absent" and
"value None" (both fail the threshold filter for every threshold the
code produces, all of which are ≥ 0.5); `keyword_score` and
`combined_score` are only ever read through `.get(…, 0)`, so they are
plain rationals defaulting to 0. -/

/-- A retrieval source dict. -/
structure Source where
  text : String := ""
  score : Option ℚ := Option.none
  metadata : List (String × String) := []
  keyword_score : ℚ := 0
  combined_score : ℚ := 0
  deriving DecidableEq, Repr

/-- `result.get('score', 0) or 0`. -/
def vecScore0 (s : Source) : ℚ := (s.score).getD 0

/-- `re.findall(r'[\u4e00-\u9fa5]+|[a-zA-Z]+', query)` with explicit
fuel (any fuel ≥ the list length is enough; structural recursion keeps
the definition kernel-reducible). -/
def keywordTokensAux : Nat → List Char → List String
  | 0, _ => []
  | _, [] => []
  | fuel + 1, c :: rest =>
      if isHan c then
        let run := rest.takeWhile isHan
        String.mk (c :: run) :: keywordTokensAux fuel (rest.drop run.length)
      else if isAsciiLetter c then
        let run := rest.takeWhile isAsciiLetter
        String.mk (c :: run) :: keywordTokensAux fuel (rest.drop run.length)
      else keywordTokensAux fuel rest

/-- `re.findall(r'[\u4e00-\u9fa5]+|[a-zA-Z]+', query)`: the maximal
runs of CJK characters or of ASCII letters. -/
def keywordTokens (l : List Char) : List String := keywordTokensAux l.length l

/-- Python `text.count(pat)` with explicit fuel (any fuel ≥ the text
length is enough). -/
def countOccsAux (pat : List Char) : Nat → List Char → Nat
  | 0, _ => 0
  | _, [] => 0
  | fuel + 1, c :: rest =>
      if pat ≠ [] ∧ isPre pat (c :: rest) then
        1 + countOccsAux pat fuel ((c :: rest).drop pat.length)
      else countOccsAux pat fuel rest

/-- Python `text.count(pat)` for a nonempty pattern: non-overlapping
occurrences, scanning from the left.  (The retriever only counts
nonempty keyword tokens.) -/
def countOccs (pat l : List Char) : Nat := countOccsAux pat l.length l

/-- The keyword score of one source for `_keyword_search`: occurrence
counts, with multi-character tokens weighted 2 and single-character
tokens weighted 1. -/
def keywordScoreOf (keywords : List String) (s : Source) : ℚ :=
  keywords.foldl (fun score keyword =>
    let c := countOccs (pyLower keyword).data (pyLower s.text).data
    score + c * (if keyword.data.length > 1 then 2 else 1)) 0

/-- `RAGRetriever._keyword_search`. -/
def keywordSearch (query : String) (all_sources : List Source) (top_k : Nat) :
    List Source :=
  let keywords := keywordTokens query.data
  if keywords = [] then []
  else
    let scored_sources := all_sources.filterMap (fun source =>
      let score := keywordScoreOf keywords source
      if score > 0 then some { source with keyword_score := score } else Option.none)
    (scored_sources.insertionSort (fun a b => b.keyword_score ≤ a.keyword_score)).take top_k

/-- One insertion into `result_map` (keyed by chunk text): bump the
stored entry's `combined_score`, or append a copy of the source with
the given initial `combined_score`. -/
def rmAdd (m : List (String × Source)) (r : Source) (delta : ℚ) :
    List (String × Source) :=
  match m with
  | [] => [(r.text, { r with combined_score := delta })]
  | (k, e) :: rest =>
      if k = r.text then (k, { e with combined_score := e.combined_score + delta }) :: rest
      else (k, e) :: rmAdd rest r delta

/-- `RAGRetriever._rerank`. -/
def rerank (vector_results keyword_results : List Source) (top_k : Nat) :
    List Source :=
  let result_map := vector_results.foldl
    (fun m r => rmAdd m r (vecScore0 r * (6 / 10))) []
  let result_map := keyword_results.foldl
    (fun m r => rmAdd m r (min 1 (r.keyword_score / 10) * (4 / 10))) result_map
  let reranked := result_map.map (fun p => p.2)
  (reranked.insertionSort (fun a b => b.combined_score ≤ a.combined_score)).take top_k

/-- `RAGRetriever._adaptive_threshold`. -/
def adaptiveThreshold (query : String) (results : List Source) : ℚ :=
  let threshold : ℚ :=
    if query.data.length < 10 then 75 / 100
    else if query.data.length > 50 then 65 / 100
    else 7 / 10
  if results.length < 3 then max (6 / 10) (threshold - 5 / 100)
  else if results.length > 10 then min (8 / 10) (threshold + 5 / 100)
  else threshold

/-- `RAGRetriever._filter_by_threshold` (`result.get('score', 0)`
followed by the `is not None` guard and the comparison). -/
def filterByThreshold (results : List Source) (threshold : ℚ) : List Source :=
  results.filter (fun result =>
    match result.score with
    | some score => threshold ≤ score
    | Option.none => threshold ≤ 0)

/-- A formatted source of `retrieve`'s return value. -/
structure FormattedSource where
  text : String
  score : Option ℚ
  metadata : List (String × String)
  deriving DecidableEq, Repr

/-- `source.get('score') or source.get('combined_score')` in the
hybrid formatting loop (every formatted source came from the rerank
map, so `combined_score` is present). -/
def fmtHybridScore (s : Source) : ℚ :=
  match s.score with
  | some q => if q ≠ 0 then q else s.combined_score
  | Option.none => s.combined_score

/-- The return value of `retrieve`. -/
structure RetrieveResult where
  answer : String
  sources : List FormattedSource
  deriving DecidableEq, Repr

/-- `RAGRetriever.retrieve`, with the underlying
`self.indexer.query(query, top_k)` abstracted as `indexQuery` (answer
text and source list) and index readiness as `ready`.  An unready
index raises `ValueError`, embedded as the `Except.error` case. -/
def retrieve (use_hybrid ready : Bool)
    (indexQuery : String → Nat → String × List Source)
    (query : String) (top_k? : Option Nat) : Except String RetrieveResult :=
  if ¬ ready then
    .error "索引未初始化，请先构建索引。运行: python -m rag_system.main index"
  else
    let top_k := top_k?.getD 3
    let vector_top_k := if use_hybrid then top_k * 2 else top_k
    let qres := indexQuery query vector_top_k
    let answer := qres.1
    let vector_results := qres.2
    if ¬ use_hybrid then
      .ok { answer,
            sources := (vector_results.take top_k).map (fun s =>
              { text := s.text, score := s.score, metadata := s.metadata }) }
    else
      let keyword_results := keywordSearch query vector_results top_k
      let reranked_results := rerank vector_results keyword_results (top_k * 2)
      let threshold := adaptiveThreshold query reranked_results
      let filtered_results := filterByThreshold reranked_results threshold
      let filtered_results :=
        if filtered_results.length < top_k ∧ reranked_results.length > 0 then
          filterByThreshold reranked_results (max (1 / 2) (threshold - 1 / 10))
        else filtered_results
      let final_results :=
        if filtered_results ≠ [] then filtered_results.take top_k
        else reranked_results.take top_k
      .ok { answer,
            sources := final_results.map (fun s =>
              { text := s.text, score := some (fmtHybridScore s),
                metadata := s.metadata }) }

/-! ## Work-order creation (`mcp/mcp_tools.py`)

The SQLite store is embedded as in-memory tables; `uuid4`/`now` become
parameters.  The tool's whole body is wrapped in `try/except`
returning a message string, so the embedding is a total function from
a database state to a message and the new state (`Option` on the
database models the `FileNotFoundError` of `get_db_connection` when
the database file is missing). -/

/-- A row of the `employees` table (the columns the tool reads). -/
structure Employee where
  employee_id : String
  name : String
  deriving DecidableEq, Repr

/-- A row of the `work_orders` table. -/
structure WorkOrder where
  work_order_id : String
  title : String
  description : Option String := Option.none
  assignee_id : String
  priority : String := "medium"
  category : Option String := Option.none
  status : String := "open"
  created_at : String := ""
  deriving DecidableEq, Repr

/-- The finance database. -/
structure FinanceDB where
  employees : List Employee
  work_orders : List WorkOrder
  deriving DecidableEq, Repr

/-- SQL `x or default` rendering used for nullable text columns
(`existing['category'] or '未设置'` treats NULL and `''` alike). -/
def orDefault (v : Option String) (dflt : String) : String :=
  match v with
  | some s => if s = "" then dflt else s
  | Option.none => dflt

/-- Option-string truthiness (`None` and `""` falsy). -/
def truthyS : Option String → Bool
  | some s => s ≠ ""
  | Option.none => false

/-- The assignee resolution at the top of `create_work_order_tool`:
by employee id when the uppercased argument starts with `E`, else by
exact name. -/
def lookupAssignee (db : FinanceDB) (assignee_id : String) : Option Employee :=
  let empByUpper : Option Employee :=
    if strStartsWith (pyUpper assignee_id) "E" then
      db.employees.find? (fun e => e.employee_id = pyUpper assignee_id)
    else Option.none
  match empByUpper with
  | some e => some e
  | Option.none => db.employees.find? (fun e => e.name = assignee_id)

/-- The duplicate-detection query of `create_work_order_tool`:
open/in-progress work orders with the given assignee and title,
ordered by `created_at` descending; `fetchone` takes the head. -/
def findExistingOrder (db : FinanceDB) (aid title : String) : Option WorkOrder :=
  ((db.work_orders.filter (fun w =>
      w.assignee_id = aid ∧ w.title = title ∧
      (w.status = "open" ∨ w.status = "in_progress"))).insertionSort
    (fun a b => strLe b.created_at a.created_at)).head?

/-- The `existing_info` block assembled for a duplicate hit. -/
def existingInfo (e : WorkOrder) (empName aid : String) : String :=
  "已存在匹配工单：\n" ++
  "- 工单号：" ++ e.work_order_id ++ "\n" ++
  "- 状态：" ++ e.status ++ "\n" ++
  "- 负责人：" ++ empName ++ " (" ++ aid ++ ")\n" ++
  "- 优先级：" ++ e.priority ++ "\n" ++
  "- 类别：" ++ orDefault e.category "未设置" ++ "\n" ++
  "- 创建时间：" ++ e.created_at ++ "\n"

/-- The insertion tail of `create_work_order_tool` (work-order id
generation, meta lines, `INSERT`, success message). -/
def createOrderInsert (db : FinanceDB) (nowStr uuidHex6 title aid empName : String)
    (description : Option String) (priority : String)
    (category duplicate_reason request_id : Option String) :
    String × Option FinanceDB :=
  let work_order_id := "WO" ++ nowStr ++ uuidHex6
  let meta_lines :=
    (match request_id with
     | some r => if r ≠ "" then ["[RequestID: " ++ r ++ "]"] else []
     | Option.none => []) ++
    (match duplicate_reason with
     | some r => if r ≠ "" then ["[DuplicateReason: " ++ r ++ "]"] else []
     | Option.none => [])
  let meta_text := String.intercalate "\n" meta_lines
  let final_description := (description).getD ""
  let final_description :=
    if meta_text ≠ "" then pyStrip (final_description ++ "\n" ++ meta_text)
    else final_description
  let row : WorkOrder :=
    { work_order_id := work_order_id, title := title,
      description := if final_description = "" then Option.none else some final_description,
      assignee_id := aid, priority := priority, category := category,
      status := "open", created_at := nowStr }
  let priority_cn :=
    if priority = "low" then "低"
    else if priority = "medium" then "中"
    else if priority = "high" then "高"
    else if priority = "urgent" then "紧急"
    else priority
  let extra_note :=
    (match duplicate_reason with
     | some r => if r ≠ "" then "\n备注：重复工单原因 - " ++ r else ""
     | Option.none => "") ++
    (match request_id with
     | some r => if r ≠ "" then "\n关联请求：" ++ r else ""
     | Option.none => "")
  ("✅ 工单创建成功！\n\n" ++
   "工单号：" ++ work_order_id ++ "\n" ++
   "标题：" ++ title ++ "\n" ++
   "负责人：" ++ empName ++ " (" ++ aid ++ ")\n" ++
   "优先级：" ++ priority_cn ++ "\n" ++
   "状态：待处理" ++ extra_note,
   some { db with work_orders := db.work_orders ++ [row] })


/-- `mcp_tools.create_work_order_tool`.  `db?` is the connected
database (`Option.none`: the database file is missing, so
`get_db_connection` raises and the `except` arm returns an error
message); `nowStr`/`nowMinute` stand for the `datetime.now()` renderings
and `uuidHex6` for `uuid4().hex[:6].upper()`.  Returns the message and
the database afterwards. -/
def create_work_order_tool (db? : Option FinanceDB) (dbPath : String)
    (nowStr nowMinute uuidHex6 : String)
    (title assignee_id : String) (description : Option String)
    (priority : String) (category duplicate_reason request_id : Option String)
    (action : String) : String × Option FinanceDB :=
  match db? with
  | Option.none =>
      ("创建工单失败: 数据库不存在: " ++ dbPath ++ "，请先运行 python mcp/init_database.py",
       Option.none)
  | some db =>
    match lookupAssignee db assignee_id with
    | Option.none => ("员工 " ++ assignee_id ++ " 不存在，无法创建工单", some db)
    | some emp =>
      let aid := emp.employee_id
      let existing := findExistingOrder db aid title
      let action := pyLower (if action = "" then "auto" else action)
      if ¬ (action = "auto" ∨ action = "create_new" ∨ action = "update_existing") then
        ("action 参数无效：" ++ action ++ "，可选值：auto/create_new/update_existing。", some db)
      else
        match existing with
        | some ex =>
          let info := existingInfo ex emp.name aid
          if action = "update_existing" then
            let existing_desc := (ex.description).getD ""
            let note_parts :=
              (match description with | some d => if d ≠ "" then [d] else [] | Option.none => []) ++
              (match duplicate_reason with
               | some r => if r ≠ "" then ["重复原因：" ++ r] else []
               | Option.none => []) ++
              (match request_id with
               | some r => if r ≠ "" then ["关联请求：" ++ r] else []
               | Option.none => [])
            let new_description :=
              if note_parts ≠ [] then
                pyStrip (existing_desc ++ "\n" ++ "[更新 " ++ nowMinute ++ "] " ++
                  String.intercalate " " note_parts)
              else existing_desc
            let new_priority := if priority ≠ "" then priority else ex.priority
            let new_category :=
              match category with
              | some c => if c ≠ "" then some c else ex.category
              | Option.none => ex.category
            let db' : FinanceDB :=
              { db with work_orders := db.work_orders.map (fun w =>
                  if w.work_order_id = ex.work_order_id then
                    { w with
                      description := if new_description = "" then Option.none else some new_description,
                      priority := new_priority, category := new_category }
                  else w) }
            ("✅ 已更新现有工单 " ++ ex.work_order_id ++ "。\n" ++ info ++
             "如需新增工单，可设置 action=\"create_new\" 并提供 duplicate_reason。", some db')
          else if action = "create_new" ∧ ¬ truthyS duplicate_reason then
            (info ++ "已存在相同工单。如仍需创建新的工单，请提供 duplicate_reason 说明。", some db)
          else if action = "auto" ∧ ¬ truthyS duplicate_reason then
            (info ++ "系统已阻止重复创建。\n" ++
             "如需更新此工单，请设置 action=\"update_existing\" 并提供新的描述或优先级。\n" ++
             "如确需新建，请设置 action=\"create_new\" 并提供 duplicate_reason。", some db)
          else
            createOrderInsert db nowStr uuidHex6 title aid emp.name description
              priority category duplicate_reason request_id
        | Option.none =>
            createOrderInsert db nowStr uuidHex6 title aid emp.name description
              priority category duplicate_reason request_id
/-! ## Specification-side definitions

These definitions follow the wording of the specification (not the
source); theorems relate them to the embedded code. -/

/-- The correct last day of month `N` of year `y`, stated as in the
specification: December and the other 31-day months map to 31,
February maps to 29 exactly in leap years (fourth years that are not
centuries unless fourth centuries), the rest map to 30. -/
def lastDayOfMonthSpec (y N : Nat) : Nat :=
  if N = 1 ∨ N = 3 ∨ N = 5 ∨ N = 7 ∨ N = 8 ∨ N = 10 ∨ N = 12 then 31
  else if N = 2 then (if y % 4 = 0 ∧ (y % 100 ≠ 0 ∨ y % 400 = 0) then 29 else 28)
  else 30

/-- The dependency-completeness property claimed for
`_validate_and_fix_plan`: in the returned step list, every step whose
tool has a static dependency is preceded by a step invoking that
dependency — unless the validator at least flagged an issue. -/
def planDepsClaim (entities : PyDict) (steps : List PStep) : Prop :=
  ∀ i step tn d,
    (validate_and_fix_plan entities steps).1.get? i = some step →
    step.tool_name = some tn →
    d ∈ depsOf tool_dependencies tn →
    ((∃ j, j < i ∧ ∃ s', (validate_and_fix_plan entities steps).1.get? j = some s' ∧
        s'.tool_name = some d) ∨
      (validate_and_fix_plan entities steps).2 ≠ [])

/-- The context condition under which the Parameter Validator is
idempotent: a context-supplied `assignee_id` that normalizes
(strip + uppercase) to an `E`-prefixed identifier is already stored in
normalized form. -/
def ctxAssigneeStable (context : PyDict) : Prop :=
  ∀ v, dGet? context "assignee_id" = some v →
    strStartsWith (pyUpper (pyStrip v.toStr)) "E" →
    v = PyVal.str (pyUpper (pyStrip v.toStr))

/-- A date string in the normal form produced by the validator's date
repair: a fixed point of `parseDateStr` carrying no month marker. -/
def goodDateStr (s : String) : Prop :=
  parseDateStr s = s ∧ strContains s "月" = false ∧ strContains s "month" = false

/-- A parameter-shaped step error, per `_execute_step_with_retry`'s
first check: contains `参数错误`, or lowercased contains `missing`. -/
def isParamShaped (e : String) : Bool :=
  strContains e "参数错误" || strContains (pyLower e) "missing"

/-- A not-found-shaped step error, per the second check: contains
`数据不存在` or `不存在`. -/
def isNotFoundShaped (e : String) : Bool :=
  strContains e "数据不存在" || strContains e "不存在"

/-- The number of graph names not yet visited (the termination measure
of `_resolve`). -/
def unvisitedCount (g : List (String × List String)) (v : List String) : Nat :=
  ((univNames g).filter (fun x => ¬ x ∈ v)).length

/-! ## Supporting lemmas -/

theorem strData_mk (l : List Char) : (String.mk l).data = l := rfl

theorem strExt {a b : String} (h : a.data = b.data) : a = b := by
  cases a; cases b; exact congrArg String.mk h

theorem daysInMonth_eq_spec (y m : Nat) (h1 : 1 ≤ m) (h12 : m ≤ 12) :
    daysInMonth y m = lastDayOfMonthSpec y m := by
  interval_cases m <;>
    simp [daysInMonth, lastDayOfMonthSpec, isLeapYear, Bool.and_eq_true,
      Bool.or_eq_true, decide_eq_true_eq]

/-! ## Claims -/

/-- **C5, counterexample.**  The claim quantifies over every text
containing the expression "N月份"; the text `"13月份"` contains
`"3月份"` (with N = 3 in range), yet `extract_date_range` returns the
all-null entity, because the regex `(\d+)月份?` captures `13`, the
range check `1 <= month <= 12` fails, and the function falls through
to the other patterns, none of which match. -/
theorem extract_date_range_month_cex :
    strContains "13月份" "3月份" = true ∧ 1 ≤ 3 ∧ 3 ≤ 12 ∧
    extract_date_range ⟨2024, 5, 15⟩ "13月份" =
      { start_date := Option.none, end_date := Option.none,
        month := Option.none, year := Option.none } :=
  ⟨rfl, by omega, by omega, rfl⟩

/-- **C5, amended.**  For every month `N` with `1 ≤ N ≤ 12` and every
text whose first match of the pattern `(\d+)月份?` captures digits of
value `N`, `extract_date_range` returns `start_date` equal to the
first day of month `N` of the current year (`YYYY-MM-01`) and
`end_date` equal to the correct last day of month `N`, including
N = 12 ↦ December 31 and February ↦ 28 or 29 according to whether the
current year is a leap year. -/
theorem extract_date_range_month_amended (now : PyDate) (N : Nat) (text : String)
    (ds : List Char) (hfind : findMonthRun [] text.data = some ds)
    (hval : natOfDigits ds = N) (h1 : 1 ≤ N) (h12 : N ≤ 12) :
    extract_date_range now text =
      { month := some N, year := some now.year,
        start_date := some (natToStr now.year ++ "-" ++ pad2 N ++ "-01"),
        end_date := some (natToStr now.year ++ "-" ++ pad2 N ++ "-" ++
          natToStr (lastDayOfMonthSpec now.year N)) } := by
  unfold extract_date_range
  rw [hfind]
  simp only [hval]
  rw [if_pos ⟨h1, h12⟩]
  by_cases h12' : N = 12
  · subst h12'
    simp only [lastDayOfMonthSpec]
    norm_num
    apply strExt
    simp only [String.data_append, strData_mk, List.append_assoc]
    rfl
  · rw [← daysInMonth_eq_spec now.year N h1 h12]
    simp only [predDay, show ¬ (1 : Nat) > 1 by omega, if_false,
      show N + 1 > 1 by omega, if_true, if_neg h12']
    simp

/-- **C5, witness.**  The amended theorem instantiated at
February 2024 (a leap year): `"2月份"` yields the range
2024-02-01 – 2024-02-29. -/
theorem extract_date_range_month_amended_witness :
    findMonthRun [] "2月份".data = some ['2'] ∧ natOfDigits ['2'] = 2 ∧
    extract_date_range ⟨2024, 1, 1⟩ "2月份" =
      { month := some 2, year := some 2024,
        start_date := some (natToStr 2024 ++ "-" ++ pad2 2 ++ "-01"),
        end_date := some (natToStr 2024 ++ "-" ++ pad2 2 ++ "-" ++
          natToStr (lastDayOfMonthSpec 2024 2)) } :=
  ⟨rfl, rfl,
    extract_date_range_month_amended ⟨2024, 1, 1⟩ 2 "2月份" ['2'] rfl rfl
      (by omega) (by omega)⟩

/-- **C10.**  When no `current_user` is configured, a text containing
the first-person pronoun `我` does not short-circuit: `extract_employee`
still applies the employee-ID pattern, the surname-based name pattern
and the department suffix pattern, returning exactly the
pattern-extraction result. -/
theorem extract_employee_pronoun_no_user (text : String)
    (_h : strContains text "我" = true) :
    extract_employee Option.none text = extractEmployeePatterns text := by
  simp [extract_employee]

/-- **C10, witness.**  A pronoun-bearing text with no configured user:
the patterns still fire and extract the employee id `E456`. -/
theorem extract_employee_pronoun_no_user_witness :
    strContains "我的报销情况 E456 呢" "我" = true ∧
    extract_employee Option.none "我的报销情况 E456 呢" =
      extractEmployeePatterns "我的报销情况 E456 呢" ∧
    extractEmployeePatterns "我的报销情况 E456 呢" =
      { name := Option.none, employee_id := some "E456", department := Option.none } :=
  ⟨rfl, extract_employee_pronoun_no_user "我的报销情况 E456 呢" rfl, rfl⟩

/-- **C2 (code bug).**  The spec's contract says
`validate_and_fix_params` never raises and passes unresolvable
arguments through unchanged, and `_parse_date`'s own fallback comment
promises to return the original value when parsing fails; but a truthy
non-string date (an integer date as produced by LLM-authored JSON)
reaches `re.match` outside the `try` block and raises `TypeError`. -/
theorem validate_params_raises_on_int_date :
    validate_and_fix_params ⟨2024, 5, 15⟩ "query_reimbursement_summary"
      [("employee_id", PyVal.str "E001"), ("start_date", PyVal.int 20240301)] [] =
    .error (.typeError "expected string or bytes-like object") := rfl

/-- **C9.**  `validate_and_fix_params` never mutates the caller's
argument dict: its first statement copies `params`, every subsequent
write targets the copy, so whenever the call returns normally the
caller's object is unchanged. -/
theorem validate_params_no_mutation (now : PyDate) (tool_name : String)
    (params context : PyDict) (st : VFState)
    (h : validateAndFixParamsState now tool_name params context = .ok st) :
    st.callerParams = params := by
  unfold validateAndFixParamsState at h
  simp only [bind, Except.bind, pure, Except.pure] at h
  repeat' split at h
  all_goals first
    | exact Except.noConfusion h
    | (cases h; rfl)

/-- **C9, witness.**  The no-mutation theorem applied at a concrete
call. -/
theorem validate_params_no_mutation_witness :
    validateAndFixParamsState ⟨2024, 1, 1⟩ "rag_search"
      [("query", PyVal.str "差旅费")] [] =
      .ok ⟨[("query", PyVal.str "差旅费")], [("query", PyVal.str "差旅费")]⟩ ∧
    (⟨[("query", PyVal.str "差旅费")], [("query", PyVal.str "差旅费")]⟩ :
      VFState).callerParams = [("query", PyVal.str "差旅费")] :=
  ⟨rfl, validate_params_no_mutation ⟨2024, 1, 1⟩ "rag_search"
    [("query", PyVal.str "差旅费")] [] _ rfl⟩

/-! ### C8: termination of `_resolve_dependencies` -/

theorem length_filter_mono {α : Type} (p q : α → Bool)
    (h : ∀ a, p a = true → q a = true) :
    ∀ l : List α, (l.filter p).length ≤ (l.filter q).length := by
  intro l
  induction l with
  | nil => simp
  | cons a l ih =>
      by_cases hp : p a = true
      · simp only [List.filter_cons, hp, h a hp, if_true, List.length_cons]
        omega
      · cases hq : q a <;> simp [List.filter_cons, hq, Bool.eq_false_iff.mpr hp] <;> omega

theorem length_filter_strict {α : Type} (p q : α → Bool)
    (h : ∀ a, p a = true → q a = true) (t : α) (hpt : p t = false)
    (hqt : q t = true) :
    ∀ l : List α, t ∈ l → (l.filter p).length < (l.filter q).length := by
  intro l
  induction l with
  | nil => simp
  | cons a l ih =>
      intro hmem
      rcases List.mem_cons.mp hmem with rfl | hmem'
      · have := length_filter_mono p q h l
        simp [List.filter_cons, hpt, hqt]
        omega
      · by_cases hp : p a = true
        · have := ih hmem'
          simp [List.filter_cons, hp, h a hp]
          omega
        · have hle := ih hmem'
          cases hq : q a <;>
            simp [List.filter_cons, hq, Bool.eq_false_iff.mpr hp] <;>
            omega

theorem unvisitedCount_mono (g : List (String × List String)) (v v' : List String)
    (hsub : ∀ x, x ∈ v → x ∈ v') : unvisitedCount g v' ≤ unvisitedCount g v := by
  apply length_filter_mono
  intro a ha
  simp only [decide_eq_true_eq] at ha ⊢
  exact fun hav => ha (hsub a hav)

theorem unvisitedCount_strict (g : List (String × List String)) (v : List String)
    (t : String) (ht : t ∈ univNames g) (htv : t ∉ v) :
    unvisitedCount g (v ++ [t]) < unvisitedCount g v := by
  apply length_filter_strict _ _ _ t _ _ _ ht
  · intro a ha
    simp only [decide_eq_true_eq, List.mem_append] at ha ⊢
    exact fun hav => ha (Or.inl hav)
  · simp
  · simp [htv]

theorem depsOf_sub_univ (g : List (String × List String)) (t d : String)
    (hd : d ∈ depsOf g t) : d ∈ univNames g := by
  unfold depsOf at hd
  cases hf : g.find? (fun p => p.1 = t) with
  | none => rw [hf] at hd; simp at hd
  | some p =>
      rw [hf] at hd
      simp at hd
      have hp : p ∈ g := List.mem_of_find?_eq_some hf
      unfold univNames
      refine List.mem_append.mpr (Or.inr ?_)
      refine List.mem_flatten.mpr ⟨p.2, ?_, hd⟩
      exact List.mem_map.mpr ⟨p, hp, rfl⟩

theorem rgo_mono (g : List (String × List String)) :
    ∀ n : Nat,
      (∀ t v r out, rgoF g n t v r = some out → ∀ x, x ∈ v → x ∈ out.1) ∧
      (∀ deps v r out, rgoListF g n deps v r = some out → ∀ x, x ∈ v → x ∈ out.1) := by
  intro n
  induction n with
  | zero =>
      constructor
      · intro t v r out h; simp [rgoF] at h
      · intro deps
        cases deps with
        | nil =>
            intro v r out h x hx
            simp only [rgoListF] at h
            cases h; exact hx
        | cons d rest =>
            intro v r out h
            simp [rgoListF, rgoF] at h
  | succ n ih =>
      have hF : ∀ t v r out, rgoF g (n + 1) t v r = some out → ∀ x, x ∈ v → x ∈ out.1 := by
        intro t v r out h x hx
        rw [rgoF] at h
        by_cases hin : t ∈ v
        · rw [if_pos hin] at h
          cases h; exact hx
        · rw [if_neg hin] at h
          simp only at h
          cases hm : rgoListF g n (depsOf g t) (v ++ [t]) r with
          | none => rw [hm] at h; exact Option.noConfusion h
          | some vr =>
              rw [hm] at h
              cases h
              exact ih.2 (depsOf g t) (v ++ [t]) r vr hm x (by simp [hx])
      refine ⟨hF, ?_⟩
      intro deps
      induction deps with
      | nil =>
          intro v r out h x hx
          simp only [rgoListF] at h
          cases h; exact hx
      | cons d rest ihl =>
          intro v r out h x hx
          rw [rgoListF] at h
          cases hm : rgoF g (n + 1) d v r with
          | none => rw [hm] at h; exact Option.noConfusion h
          | some vr =>
              rw [hm] at h
              exact ihl vr.1 _ out h x (hF d v r vr hm x hx)

theorem rgo_isSome (g : List (String × List String)) :
    ∀ n : Nat,
      (∀ t v r, t ∈ univNames g → unvisitedCount g v < n → (rgoF g n t v r).isSome) ∧
      (∀ deps v r, (∀ d, d ∈ deps → d ∈ univNames g) → unvisitedCount g v < n →
        (rgoListF g n deps v r).isSome) := by
  intro n
  induction n with
  | zero =>
      constructor
      · intro t v r _ hlt; omega
      · intro deps v r _ hlt; omega
  | succ n ih =>
      have hF : ∀ t v r, t ∈ univNames g → unvisitedCount g v < n + 1 →
          (rgoF g (n + 1) t v r).isSome := by
        intro t v r ht hlt
        rw [rgoF]
        by_cases hin : t ∈ v
        · rw [if_pos hin]; rfl
        · rw [if_neg hin]
          simp only
          have hstrict := unvisitedCount_strict g v t ht hin
          have hlt' : unvisitedCount g (v ++ [t]) < n := by omega
          have hsome := ih.2 (depsOf g t) (v ++ [t]) r
            (fun d hd => depsOf_sub_univ g t d hd) hlt'
          cases hm : rgoListF g n (depsOf g t) (v ++ [t]) r with
          | none => rw [hm] at hsome; exact absurd hsome (by simp)
          | some vr => rfl
      refine ⟨hF, ?_⟩
      intro deps
      induction deps with
      | nil => intro v r _ _; rw [rgoListF]; rfl
      | cons d rest ihl =>
          intro v r hsub hlt
          rw [rgoListF]
          have hd := hF d v r (hsub d (by simp)) hlt
          cases hm : rgoF g (n + 1) d v r with
          | none => rw [hm] at hd; exact absurd hd (by simp)
          | some vr =>
              have hmono := (rgo_mono g (n + 1)).1 d v r vr hm
              have hle := unvisitedCount_mono g v vr.1 hmono
              exact ihl vr.1 _ (fun d' hd' => hsub d' (by simp [hd'])) (by omega)

theorem unvisitedCount_le (g : List (String × List String)) (v : List String) :
    unvisitedCount g v ≤ (univNames g).length :=
  List.length_filter_le _ _

/-- **C8.**  For every tool dependency mapping — cyclic ones included —
and every requested tool name, `_resolve_dependencies` terminates and
returns a finite list: the fuelled embedding never reaches its
out-of-fuel branch, because the `visited` set guarantees each name in
the graph is expanded at most once. -/
theorem resolve_dependencies_total (g : List (String × List String))
    (tool_name : String) : ∃ l, resolve_dependencies g tool_name = some l := by
  unfold resolve_dependencies
  simp only
  have haux : ∀ (deps : List String), (∀ d, d ∈ deps → d ∈ univNames g) →
      ∀ vr : List String × List String,
      (deps.foldlM (fun vr dep => rgoF g ((univNames g).length + 1) dep vr.1 vr.2)
        vr).isSome := by
    intro deps
    induction deps with
    | nil => intro _ vr; rfl
    | cons d rest ih =>
        intro hsub vr
        have hd := (rgo_isSome g ((univNames g).length + 1)).1 d vr.1 vr.2
          (hsub d (by simp))
          (by have := unvisitedCount_le g vr.1; omega)
        rw [List.foldlM_cons]
        cases hm : rgoF g ((univNames g).length + 1) d vr.1 vr.2 with
        | none => rw [hm] at hd; exact absurd hd (by simp)
        | some vr' =>
            simp only [Option.bind_eq_bind, Option.some_bind]
            exact ih (fun d' hd' => hsub d' (by simp [hd'])) vr'
  have h := haux (depsOf g tool_name) (fun d hd => depsOf_sub_univ g tool_name d hd)
    ([], [])
  cases hm : (depsOf g tool_name).foldlM
      (fun vr dep => rgoF g ((univNames g).length + 1) dep vr.1 vr.2) ([], []) with
  | none => rw [hm] at h; exact absurd h (by simp)
  | some vr => exact ⟨vr.2, rfl⟩

/-! ### C1: dependency completeness of `_validate_and_fix_plan` -/

theorem depsOf_tool_dependencies (tn : String) :
    depsOf tool_dependencies tn = [] ∨
    depsOf tool_dependencies tn = ["query_employee_info"] := by
  by_cases h1 : tn = "query_reimbursement_summary"
  · subst h1; right; rfl
  by_cases h2 : tn = "query_reimbursement_status"
  · subst h2; right; rfl
  by_cases h3 : tn = "query_reimbursement_records"
  · subst h3; right; rfl
  by_cases h4 : tn = "create_work_order"
  · subst h4; right; rfl
  by_cases h5 : tn = "send_email"
  · subst h5; right; rfl
  left
  unfold depsOf tool_dependencies
  rw [List.find?_eq_none.mpr ?_]
  · rfl
  · intro x hx
    fin_cases hx <;> simp [Ne.symm h1, Ne.symm h2, Ne.symm h3, Ne.symm h4, Ne.symm h5]

theorem depsOf_qei : depsOf tool_dependencies "query_employee_info" = [] := rfl

/-- The invariant maintained over `_validate_and_fix_plan`'s loop:
every tool recorded in `executed_tools` is invoked by some repaired
step, and every repaired step's static dependencies are invoked by
strictly earlier repaired steps. -/
def PVInv (st : PVState) : Prop :=
  (∀ t, t ∈ st.executed_tools →
    ∃ j : Nat, ∃ s, st.fixed_steps[j]? = some s ∧ s.tool_name = some t) ∧
  (∀ i : Nat, ∀ step tn d, st.fixed_steps[i]? = some step →
    step.tool_name = some tn → d ∈ depsOf tool_dependencies tn →
    ∃ j, j < i ∧ ∃ s', st.fixed_steps[j]? = some s' ∧ s'.tool_name = some d)

theorem mem_exists_getElem {α : Type} (l : List α) (x : α) (h : x ∈ l) :
    ∃ i : Nat, l[i]? = some x := by
  obtain ⟨i, hi, he⟩ := List.getElem_of_mem h
  refine ⟨i, ?_⟩
  rw [List.getElem?_eq_getElem hi]
  exact congrArg some he

theorem getElem?_append_left' {α : Type} (l₁ l₂ : List α) (i : Nat)
    (h : i < l₁.length) : (l₁ ++ l₂)[i]? = l₁[i]? := by
  rw [List.getElem?_append]; rw [if_pos h]

theorem getElem?_some_lt {α : Type} {l : List α} {i : Nat} {x : α}
    (h : l[i]? = some x) : i < l.length :=
  (List.getElem?_eq_some.mp h).1

/-- Appending a step preserves indexed lookups of the old list. -/
theorem appendStep_getElem (l : List PStep) (s : PStep) (i : Nat) (x : PStep)
    (h : l[i]? = some x) : (l ++ [s])[i]? = some x := by
  rw [getElem?_append_left' l [s] i (getElem?_some_lt h)]
  exact h

/-- `PVInv` survives appending a step all of whose dependencies
already appear in `fixed_steps`, while recording its tool. -/
theorem pvInv_append (st : PVState) (step : PStep) (tn : String)
    (hInv : PVInv st) (htn : step.tool_name = some tn)
    (hdeps : ∀ d, d ∈ depsOf tool_dependencies tn →
      ∃ j : Nat, ∃ s', st.fixed_steps[j]? = some s' ∧ s'.tool_name = some d)
    (st' : PVState) (hfix : st'.fixed_steps = st.fixed_steps ++ [step])
    (hexec : st'.executed_tools = setAdd st.executed_tools tn) : PVInv st' := by
  constructor
  · intro t ht
    rw [hexec] at ht
    unfold setAdd at ht
    by_cases hmem : tn ∈ st.executed_tools
    · rw [if_pos hmem] at ht
      obtain ⟨j, s, hj, hs⟩ := hInv.1 t ht
      exact ⟨j, s, by rw [hfix]; exact appendStep_getElem _ _ _ _ hj, hs⟩
    · rw [if_neg hmem] at ht
      rcases List.mem_append.mp ht with hold | hnew
      · obtain ⟨j, s, hj, hs⟩ := hInv.1 t hold
        exact ⟨j, s, by rw [hfix]; exact appendStep_getElem _ _ _ _ hj, hs⟩
      · have htEq : t = tn := by simpa using hnew
        subst htEq
        refine ⟨st.fixed_steps.length, step, ?_, htn⟩
        rw [hfix]; simp
  · intro i s tn' d hi hs hd
    rw [hfix] at hi
    by_cases hlt : i < st.fixed_steps.length
    · rw [getElem?_append_left' _ _ _ hlt] at hi
      obtain ⟨j, hj, s', hj', hs'⟩ := hInv.2 i s tn' d hi hs hd
      exact ⟨j, hj, s', by rw [hfix]; exact appendStep_getElem _ _ _ _ hj', hs'⟩
    · have hi' : i = st.fixed_steps.length := by
        have := getElem?_some_lt hi
        simp at this
        omega
      subst hi'
      have hsEq : s = step := by
        rw [List.getElem?_append_right (by omega)] at hi
        simp at hi
        exact hi.symm
      subst hsEq
      have htn' : tn' = tn := by rw [htn] at hs; exact (Option.some.injEq _ _).mp hs.symm
      subst htn'
      obtain ⟨j, s', hj, hs'⟩ := hdeps d hd
      refine ⟨j, getElem?_some_lt hj, s', ?_, hs'⟩
      rw [hfix]; exact appendStep_getElem _ _ _ _ hj

/-- Under intent entities carrying a truthy employee name and no
truthy employee id, `pvDeps` preserves the invariant and afterwards
every dependency of `tool_name` is invoked by some repaired step. -/
theorem pvDeps_spec (entities : PyDict) (tool_name : String) (st : PVState)
    (hname : pyTruthyO (dGet? entities "employee_name") = true)
    (hid : pyTruthyO (dGet? entities "employee_id") = false)
    (hInv : PVInv st) :
    PVInv (pvDeps entities tool_name st) ∧
    (∀ d, d ∈ depsOf tool_dependencies tool_name →
      ∃ j : Nat, ∃ s', (pvDeps entities tool_name st).fixed_steps[j]? = some s' ∧
        s'.tool_name = some d) := by
  rcases depsOf_tool_dependencies tool_name with hdeps | hdeps <;>
    unfold pvDeps <;> rw [hdeps]
  · exact ⟨hInv, by simp⟩
  · simp only [List.foldl_cons, List.foldl_nil]
    by_cases hexec : "query_employee_info" ∈ st.executed_tools
    · rw [if_pos hexec]
      refine ⟨hInv, ?_⟩
      intro d hd
      have hdq : d = "query_employee_info" := by simpa using hd
      subst hdq
      obtain ⟨j, s, hj, hs⟩ := hInv.1 _ hexec
      exact ⟨j, s, hj, hs⟩
    · rw [if_neg hexec]
      rw [if_pos trivial]
      split_ifs with hcond hquery
      · -- `has_employee_query` is true: an earlier repaired step already
        -- queries the same name
        refine ⟨hInv, ?_⟩
        intro d hd
        have hdq : d = "query_employee_info" := by simpa using hd
        subst hdq
        obtain ⟨sx, hsmem, hsp⟩ := List.any_eq_true.mp hquery
        obtain ⟨i, hi⟩ := mem_exists_getElem _ _ hsmem
        refine ⟨i, sx, hi, ?_⟩
        simpa using (of_decide_eq_true hsp).1
      · -- the lookup step is synthesized and appended
        refine ⟨⟨?_, ?_⟩, ?_⟩
        · intro t ht
          simp only at ht
          unfold setAdd at ht
          rw [if_neg hexec] at ht
          rcases List.mem_append.mp ht with hold | hnew
          · obtain ⟨j, sx, hj, hs⟩ := hInv.1 t hold
            exact ⟨j, sx, appendStep_getElem _ _ _ _ hj, hs⟩
          · have htEq : t = "query_employee_info" := by simpa using hnew
            subst htEq
            exact ⟨st.fixed_steps.length,
              synthQeiStep ((dGet? entities "employee_name").getD PyVal.none)
                tool_name st.fixed_steps.length, by simp, rfl⟩
        · intro i s tn' d hi hs hd
          by_cases hlt : i < st.fixed_steps.length
          · rw [getElem?_append_left' _ _ _ hlt] at hi
            obtain ⟨j, hj, s', hj', hs'⟩ := hInv.2 i s tn' d hi hs hd
            exact ⟨j, hj, s', appendStep_getElem _ _ _ _ hj', hs'⟩
          · have hi' : i = st.fixed_steps.length := by
              have := getElem?_some_lt hi
              simp at this
              omega
            subst hi'
            have hsEq : s = synthQeiStep ((dGet? entities "employee_name").getD PyVal.none) tool_name st.fixed_steps.length := by
              rw [List.getElem?_append_right (by omega)] at hi
              simp at hi
              exact hi.symm
            have htn' : tn' = "query_employee_info" := by
              rw [hsEq] at hs
              simpa [synthQeiStep] using hs.symm
            subst htn'
            rw [depsOf_qei] at hd
            exact absurd hd (List.not_mem_nil d)
        · intro d hd
          have hdq : d = "query_employee_info" := by simpa using hd
          subst hdq
          exact ⟨st.fixed_steps.length,
            synthQeiStep ((dGet? entities "employee_name").getD PyVal.none)
              tool_name st.fixed_steps.length, by simp, rfl⟩
      · -- the entity condition cannot fail under the hypotheses
        exact absurd ⟨hname, by rw [hid]; simp⟩ hcond

/-- One loop iteration of `_validate_and_fix_plan` preserves the
invariant, given entities with a truthy name and no truthy id. -/
theorem pvStep_inv (entities : PyDict) (st : PVState) (i : Nat) (step : PStep)
    (hname : pyTruthyO (dGet? entities "employee_name") = true)
    (hid : pyTruthyO (dGet? entities "employee_id") = false)
    (hInv : PVInv st) : PVInv (pvStep entities st i step) := by
  unfold pvStep
  split
  · exact ⟨hInv.1, hInv.2⟩
  · rename_i tn htn
    by_cases hknown : tn ∉ toolNames
    · rw [if_pos hknown]
      exact ⟨hInv.1, hInv.2⟩
    · rw [if_neg hknown]
      by_cases hseen : (tn, sortByKey step.arguments) ∈ st.seen_steps
      · rw [if_pos hseen]
        exact ⟨hInv.1, hInv.2⟩
      · rw [if_neg hseen]
        have hInv1 : PVInv { st with
            seen_steps := setAdd st.seen_steps (tn, sortByKey step.arguments) } :=
          ⟨hInv.1, hInv.2⟩
        obtain ⟨hInv2, hdeps2⟩ := pvDeps_spec entities tn _ hname hid hInv1
        refine pvInv_append _ step tn ?_ htn ?_ _ rfl rfl
        · constructor
          · intro t ht
            have hexec3 : (if tn = "query_reimbursement_summary" ∧
                  ¬ dMem step.arguments "employee_id" ∧ ¬ dMem step.arguments "name" then
                { pvDeps entities tn { st with
                    seen_steps := setAdd st.seen_steps (tn, sortByKey step.arguments) } with
                  issues := (pvDeps entities tn { st with
                    seen_steps := setAdd st.seen_steps (tn, sortByKey step.arguments) }).issues ++
                    ["步骤" ++ natToStr (i + 1) ++ " (" ++ tn ++
                      ") 缺少必需参数: employee_id 或 name"] }
              else pvDeps entities tn { st with
                seen_steps := setAdd st.seen_steps (tn, sortByKey step.arguments) }).executed_tools =
                (pvDeps entities tn { st with
                  seen_steps := setAdd st.seen_steps (tn, sortByKey step.arguments) }).executed_tools := by
              split <;> rfl
            rw [hexec3] at ht
            have hfix3 : (if tn = "query_reimbursement_summary" ∧
                  ¬ dMem step.arguments "employee_id" ∧ ¬ dMem step.arguments "name" then
                { pvDeps entities tn { st with
                    seen_steps := setAdd st.seen_steps (tn, sortByKey step.arguments) } with
                  issues := (pvDeps entities tn { st with
                    seen_steps := setAdd st.seen_steps (tn, sortByKey step.arguments) }).issues ++
                    ["步骤" ++ natToStr (i + 1) ++ " (" ++ tn ++
                      ") 缺少必需参数: employee_id 或 name"] }
              else pvDeps entities tn { st with
                seen_steps := setAdd st.seen_steps (tn, sortByKey step.arguments) }).fixed_steps =
                (pvDeps entities tn { st with
                  seen_steps := setAdd st.seen_steps (tn, sortByKey step.arguments) }).fixed_steps := by
              split <;> rfl
            rw [hfix3]
            exact hInv2.1 t ht
          · intro a b c d h1 h2 h3
            have hfix3 : (if tn = "query_reimbursement_summary" ∧
                  ¬ dMem step.arguments "employee_id" ∧ ¬ dMem step.arguments "name" then
                { pvDeps entities tn { st with
                    seen_steps := setAdd st.seen_steps (tn, sortByKey step.arguments) } with
                  issues := (pvDeps entities tn { st with
                    seen_steps := setAdd st.seen_steps (tn, sortByKey step.arguments) }).issues ++
                    ["步骤" ++ natToStr (i + 1) ++ " (" ++ tn ++
                      ") 缺少必需参数: employee_id 或 name"] }
              else pvDeps entities tn { st with
                seen_steps := setAdd st.seen_steps (tn, sortByKey step.arguments) }).fixed_steps =
                (pvDeps entities tn { st with
                  seen_steps := setAdd st.seen_steps (tn, sortByKey step.arguments) }).fixed_steps := by
              split <;> rfl
            rw [hfix3] at h1 ⊢
            exact hInv2.2 a b c d h1 h2 h3
        · intro d hd
          have hfix3 : (if tn = "query_reimbursement_summary" ∧
                ¬ dMem step.arguments "employee_id" ∧ ¬ dMem step.arguments "name" then
              { pvDeps entities tn { st with
                  seen_steps := setAdd st.seen_steps (tn, sortByKey step.arguments) } with
                issues := (pvDeps entities tn { st with
                  seen_steps := setAdd st.seen_steps (tn, sortByKey step.arguments) }).issues ++
                  ["步骤" ++ natToStr (i + 1) ++ " (" ++ tn ++
                    ") 缺少必需参数: employee_id 或 name"] }
            else pvDeps entities tn { st with
              seen_steps := setAdd st.seen_steps (tn, sortByKey step.arguments) }).fixed_steps =
              (pvDeps entities tn { st with
                seen_steps := setAdd st.seen_steps (tn, sortByKey step.arguments) }).fixed_steps := by
            split <;> rfl
          rw [hfix3]
          exact hdeps2 d hd

/-! ### C4: retry counts in `_execute_step_with_retry` -/

theorem retryGo_notfound_once (now : PyDate) (B : ToolBehavior) (tn : Option String)
    (mr fuel : Nat) (step : PStep) (ctx : PyDict) (attempt : Nat) (e : String)
    (hfail : (execStep now B step ctx).success = false)
    (herr : (execStep now B step ctx).error = some e)
    (hnf : isNotFoundShaped e = true) (hnp : isParamShaped e = false) :
    retryGo now B tn mr (fuel + 1) step ctx attempt =
      { success := false, error := some e,
        suggestion := some (generateSuggestion tn e),
        attempts := attempt + 1, context := (execStep now B step ctx).context } := by
  have hnp1 : strContains e "参数错误" = false := by
    unfold isParamShaped at hnp
    exact (Bool.or_eq_false_iff.mp hnp).1
  have hnp2 : strContains (pyLower e) "missing" = false := by
    unfold isParamShaped at hnp
    exact (Bool.or_eq_false_iff.mp hnp).2
  have hnf' : strContains e "数据不存在" = true ∨ strContains e "不存在" = true := by
    unfold isNotFoundShaped at hnf
    exact Bool.or_eq_true_iff.mp hnf
  unfold retryGo
  simp only [hfail, Bool.false_eq_true, if_false, herr, Option.getD_some]
  rw [if_neg (by rw [hnp1, hnp2]; simp)]
  rw [if_pos (by rcases hnf' with h | h <;> rw [h] <;> simp)]

theorem retryGo_generic_all (now : PyDate) (B : ToolBehavior) (tn : Option String)
    (mr : Nat) (step : PStep)
    (h : ∀ c, (execStep now B step c).success = false ∧
      isParamShaped ((execStep now B step c).error.getD "") = false ∧
      isNotFoundShaped ((execStep now B step c).error.getD "") = false) :
    ∀ fuel ctx attempt, fuel = mr + 1 - attempt → attempt ≤ mr →
      (retryGo now B tn mr fuel step ctx attempt).attempts = mr + 1 := by
  intro fuel
  induction fuel with
  | zero => intro ctx attempt hfuel hle; omega
  | succ fuel ih =>
      intro ctx attempt hfuel hle
      obtain ⟨hfail, hnp, hnf⟩ := h ctx
      have hnp1 : strContains ((execStep now B step ctx).error.getD "") "参数错误" = false := by
        unfold isParamShaped at hnp
        exact (Bool.or_eq_false_iff.mp hnp).1
      have hnp2 : strContains (pyLower ((execStep now B step ctx).error.getD "")) "missing" = false := by
        unfold isParamShaped at hnp
        exact (Bool.or_eq_false_iff.mp hnp).2
      have hnf1 : strContains ((execStep now B step ctx).error.getD "") "数据不存在" = false := by
        unfold isNotFoundShaped at hnf
        exact (Bool.or_eq_false_iff.mp hnf).1
      have hnf2 : strContains ((execStep now B step ctx).error.getD "") "不存在" = false := by
        unfold isNotFoundShaped at hnf
        exact (Bool.or_eq_false_iff.mp hnf).2
      unfold retryGo
      simp only [hfail, Bool.false_eq_true, if_false]
      rw [if_neg (by rw [hnp1, hnp2]; simp)]
      rw [if_neg (by rw [hnf1, hnf2]; simp)]
      by_cases hlt : attempt < mr
      · rw [if_pos hlt]
        exact ih (execStep now B step ctx).context (attempt + 1) (by omega) (by omega)
      · rw [if_neg hlt]

/-- **C4, counterexample.**  The parameter-shaped check runs before the
not-found check, so a not-found-shaped error whose text also contains
`missing` (here a `FileNotFoundError("missing file")`, wrapped by
`_execute_step` into `数据不存在: missing file`) is retried: with
`max_retries = 2` the step is attempted 3 times, not exactly once as
the claim states for every error containing `数据不存在`. -/
theorem retry_notfound_cex :
    strContains (((executeStepWithRetry ⟨2024, 1, 1⟩
        (fun _ _ => .raiseFileNotFound "missing file")
        { tool_name := some "rag_search", arguments := [], step_id := 0,
          reason := Option.none } [] 2).error).getD "") "数据不存在" = true ∧
    (executeStepWithRetry ⟨2024, 1, 1⟩ (fun _ _ => .raiseFileNotFound "missing file")
      { tool_name := some "rag_search", arguments := [], step_id := 0,
        reason := Option.none } [] 2).attempts = 3 :=
  ⟨rfl, rfl⟩

/-- **C4, amended.**  In `_execute_step_with_retry` with
`max_retries = 2`: (1) a step whose execution yields a
not-found-shaped error (containing `数据不存在` or `不存在`) that is
*not also parameter-shaped* (no `参数错误`, and lowercased no
`missing`) is attempted exactly once, returning the failure record
with the canned suggestion; (2) a step whose execution always yields a
generic error (neither parameter- nor not-found-shaped) is attempted
exactly `max_retries + 1 = 3` times before the failure record is
returned. -/
theorem retry_shape_amended :
    (∀ (now : PyDate) (B : ToolBehavior) (step : PStep) (ctx : PyDict) (e : String),
      (execStep now B step ctx).success = false →
      (execStep now B step ctx).error = some e →
      isNotFoundShaped e = true → isParamShaped e = false →
      executeStepWithRetry now B step ctx 2 =
        { success := false, error := some e,
          suggestion := some (generateSuggestion step.tool_name e),
          attempts := 1, context := (execStep now B step ctx).context }) ∧
    (∀ (now : PyDate) (B : ToolBehavior) (step : PStep) (ctx : PyDict),
      (∀ c, (execStep now B step c).success = false ∧
        isParamShaped ((execStep now B step c).error.getD "") = false ∧
        isNotFoundShaped ((execStep now B step c).error.getD "") = false) →
      (executeStepWithRetry now B step ctx 2).attempts = 3) := by
  constructor
  · intro now B step ctx e hfail herr hnf hnp
    unfold executeStepWithRetry
    exact retryGo_notfound_once now B step.tool_name 2 2 step ctx 0 e hfail herr hnf hnp
  · intro now B step ctx h
    unfold executeStepWithRetry
    exact retryGo_generic_all now B step.tool_name 2 step h (2 + 1) ctx 0 rfl (by omega)

/-- **C4, witness.**  Both parts of the amended theorem applied at
concrete tool behaviors: a clean not-found error (`员工记录为空`) is
attempted once; a generic error (`boom`) is attempted 3 times. -/
theorem retry_shape_amended_witness :
    (executeStepWithRetry ⟨2024, 1, 1⟩ (fun _ _ => .raiseFileNotFound "员工记录为空")
      { tool_name := some "rag_search", arguments := [], step_id := 0,
        reason := Option.none } [] 2 =
      { success := false, error := some "数据不存在: 员工记录为空",
        suggestion := some "知识库可能没有相关信息，请尝试其他关键词",
        attempts := 1, context := [] }) ∧
    (executeStepWithRetry ⟨2024, 1, 1⟩ (fun _ _ => .raiseOther "boom")
      { tool_name := some "rag_search", arguments := [], step_id := 0,
        reason := Option.none } [] 2).attempts = 3 :=
  ⟨retry_shape_amended.1 ⟨2024, 1, 1⟩ (fun _ _ => .raiseFileNotFound "员工记录为空")
      { tool_name := some "rag_search", arguments := [], step_id := 0,
        reason := Option.none } [] "数据不存在: 员工记录为空" rfl rfl rfl rfl,
    retry_shape_amended.2 ⟨2024, 1, 1⟩ (fun _ _ => .raiseOther "boom")
      { tool_name := some "rag_search", arguments := [], step_id := 0,
        reason := Option.none } [] (fun _ => ⟨rfl, rfl, rfl⟩)⟩

/-- **C1, amended.**  Provided the intent's entities contain a truthy
`employee_name` and no truthy `employee_id` (the condition under which
the validator can synthesize lookups), every step of the repaired plan
whose tool has a static dependency is preceded in the output list by a
step invoking that dependency.  (The original claim, quantified over
every intent, fails: see the counterexample.) -/
theorem plan_validation_deps_amended (entities : PyDict) (steps : List PStep)
    (hname : pyTruthyO (dGet? entities "employee_name") = true)
    (hid : pyTruthyO (dGet? entities "employee_id") = false) :
    ∀ i : Nat, ∀ step tn d,
      (validate_and_fix_plan entities steps).1[i]? = some step →
      step.tool_name = some tn → d ∈ depsOf tool_dependencies tn →
      ∃ j, j < i ∧ ∃ s', (validate_and_fix_plan entities steps).1[j]? = some s' ∧
        s'.tool_name = some d := by
  intro i step tn d hi hs hd
  unfold validate_and_fix_plan at hi ⊢
  by_cases hempty : steps = []
  · rw [if_pos hempty] at hi
    subst hempty
    simp at hi
  · rw [if_neg hempty] at hi ⊢
    simp only at hi ⊢
    have hInvFold : ∀ (l : List (Nat × PStep)) (st : PVState), PVInv st →
        PVInv (l.foldl (fun st p => pvStep entities st p.1 p.2) st) := by
      intro l
      induction l with
      | nil => intro st h; exact h
      | cons p rest ih =>
          intro st h
          exact ih _ (pvStep_inv entities st p.1 p.2 hname hid h)
    have hInv0 : PVInv ({} : PVState) := by
      constructor
      · intro t ht; simp [PVState] at ht
      · intro a b c d h1; simp [PVState] at h1
    have hInvF := hInvFold steps.enum {} hInv0
    set stF := steps.enum.foldl (fun st p => pvStep entities st p.1 p.2) {} with hstF
    rw [List.getElem?_map] at hi
    cases hfi : stF.fixed_steps.enum[i]? with
    | none => rw [hfi] at hi; exact Option.noConfusion hi
    | some p =>
        rw [hfi] at hi
        have hpstep : p.2.tool_name = some tn := by
          have : ({ p.2 with step_id := p.1 + 1 } : PStep) = step := by
            simpa using hi
          rw [← this] at hs
          exact hs
        have hfi' : stF.fixed_steps[i]? = some p.2 := by
          rw [List.getElem?_enum] at hfi
          cases hx : stF.fixed_steps[i]? with
          | none => rw [hx] at hfi; exact Option.noConfusion hfi
          | some y =>
              rw [hx] at hfi
              simp at hfi
              rw [← hfi]
        obtain ⟨j, hj, s', hj', hs'⟩ := hInvF.2 i p.2 tn d hfi' hpstep hd
        refine ⟨j, hj, { s' with step_id := j + 1 }, ?_, hs'⟩
        rw [List.getElem?_map]
        have hzip : stF.fixed_steps.enum[j]? = some (j, s') := by
          simp [List.getElem?_enum, hj']
        rw [hzip]
        rfl

/-- **C1, counterexample.**  With empty intent entities, a plan whose
single step calls `query_reimbursement_summary` (which statically
depends on `query_employee_info`) is returned unchanged: no dependency
step is synthesized, the step is not rejected, and the issue log is
empty, so the claimed invariant fails. -/
theorem plan_validation_deps_cex :
    ¬ planDepsClaim []
      [{ tool_name := some "query_reimbursement_summary",
         arguments := [("employee_id", PyVal.str "E001")], step_id := 0,
         reason := Option.none }] := by
  intro h
  have := h 0
    { tool_name := some "query_reimbursement_summary",
      arguments := [("employee_id", PyVal.str "E001")], step_id := 1,
      reason := Option.none }
    "query_reimbursement_summary" "query_employee_info" rfl rfl (by decide)
  rcases this with ⟨j, hj, _⟩ | hiss
  · omega
  · exact hiss rfl

/-- **C1, witness (amended).**  Entities bearing a name and no id: the
repaired plan for a bare summary step synthesizes the lookup step at
index 0, and the amended theorem yields it as the preceding dependency
of the summary step at index 1. -/
theorem plan_validation_deps_amended_witness :
    pyTruthyO (dGet? [("employee_name", PyVal.str "张三")] "employee_name") = true ∧
    pyTruthyO (dGet? [("employee_name", PyVal.str "张三")] "employee_id") = false ∧
    (∃ j, j < 1 ∧ ∃ s',
      (validate_and_fix_plan [("employee_name", PyVal.str "张三")]
        [{ tool_name := some "query_reimbursement_summary",
           arguments := [("name", PyVal.str "张三")], step_id := 0,
           reason := Option.none }]).1[j]? = some s' ∧
      s'.tool_name = some "query_employee_info") :=
  ⟨rfl, rfl,
    plan_validation_deps_amended [("employee_name", PyVal.str "张三")]
      [{ tool_name := some "query_reimbursement_summary",
         arguments := [("name", PyVal.str "张三")], step_id := 0,
         reason := Option.none }] rfl rfl 1
      { tool_name := some "query_reimbursement_summary",
        arguments := [("name", PyVal.str "张三")], step_id := 2,
        reason := Option.none }
      "query_reimbursement_summary" "query_employee_info" rfl rfl (by decide)⟩

/-! ### C3: bounds of hybrid retrieval -/

theorem take_ne_nil {α : Type} (l : List α) (n : Nat) (hl : l ≠ []) (hn : 0 < n) :
    l.take n ≠ [] := by
  cases l with
  | nil => exact absurd rfl hl
  | cons a l =>
      cases n with
      | zero => omega
      | succ n => simp

theorem rmAdd_ne_nil (m : List (String × Source)) (r : Source) (delta : ℚ) :
    rmAdd m r delta ≠ [] := by
  cases m with
  | nil => simp [rmAdd]
  | cons p rest =>
      unfold rmAdd
      split <;> simp

theorem foldl_rmAdd_ne_nil (f : Source → ℚ) :
    ∀ (l : List Source) (m : List (String × Source)), (m ≠ [] ∨ l ≠ []) →
      l.foldl (fun m r => rmAdd m r (f r)) m ≠ [] := by
  intro l
  induction l with
  | nil =>
      intro m hm
      rcases hm with h | h
      · exact h
      · exact absurd rfl h
  | cons v rest ih =>
      intro m _
      exact ih (rmAdd m v (f v)) (Or.inl (rmAdd_ne_nil m v (f v)))

theorem rerank_ne_nil (v kw : List Source) (k : Nat) (hv : v ≠ []) (hk : 0 < k) :
    rerank v kw k ≠ [] := by
  unfold rerank
  apply take_ne_nil _ _ _ hk
  have h1 : v.foldl (fun m r => rmAdd m r (vecScore0 r * (6 / 10))) [] ≠ [] :=
    foldl_rmAdd_ne_nil (fun r => vecScore0 r * (6 / 10)) v [] (Or.inr hv)
  have h2 : kw.foldl (fun m r => rmAdd m r (min 1 (r.keyword_score / 10) * (4 / 10)))
      (v.foldl (fun m r => rmAdd m r (vecScore0 r * (6 / 10))) []) ≠ [] :=
    foldl_rmAdd_ne_nil (fun r => min 1 (r.keyword_score / 10) * (4 / 10)) kw _ (Or.inl h1)
  intro hcontra
  apply h2
  have hlen := congrArg List.length hcontra
  rw [List.length_insertionSort, List.length_map] at hlen
  simpa using List.eq_nil_of_length_eq_zero hlen

/-- **C3.**  When hybrid mode is active and the index is ready,
`retrieve` returns at most `top_k` sources; and whenever some vector
candidate has a nonzero vector score or a positive keyword score, it
returns at least one source (falling back to the pre-filter reranked
list when the threshold filter empties out). -/
theorem retrieve_hybrid_bounds
    (indexQuery : String → Nat → String × List Source) (query : String)
    (k : Nat) (hk : 1 ≤ k) :
    ∃ r, retrieve true true indexQuery query (some k) = .ok r ∧
      r.sources.length ≤ k ∧
      ((∃ s, s ∈ (indexQuery query (k * 2)).2 ∧
          (vecScore0 s ≠ 0 ∨ 0 < keywordScoreOf (keywordTokens query.data) s)) →
        r.sources ≠ []) := by
  unfold retrieve
  simp only [Bool.not_true, if_false, Option.getD_some, if_true, Bool.false_eq_true]
  refine ⟨_, rfl, ?_, ?_⟩
  · rw [List.length_map]
    split <;> split <;> (rw [List.length_take]; omega)
  · intro ⟨s, hs, _⟩
    have hv : (indexQuery query (k * 2)).2 ≠ [] := List.ne_nil_of_mem hs
    have hrr := rerank_ne_nil (indexQuery query (k * 2)).2
      (keywordSearch query (indexQuery query (k * 2)).2 k) (k * 2) hv (by omega)
    simp only [ne_eq, List.map_eq_nil_iff]
    split
    all_goals split
    all_goals first
      | (rename_i hne; exact take_ne_nil _ _ hne hk)
      | exact take_ne_nil _ _ hrr hk

/-- **C3, witness.**  The bound theorem applied to a one-candidate
index with vector score 1. -/
theorem retrieve_hybrid_bounds_witness :
    (1 : Nat) ≤ 2 ∧
    ∃ r, retrieve true true (fun _ _ => ("", [{ text := "差旅费报销制度", score := some 1 }])) "差旅费" (some 2) = .ok r ∧
      r.sources.length ≤ 2 ∧
      ((∃ s, s ∈ ((fun (_ : String) (_ : Nat) => (("" : String), [({ text := "差旅费报销制度", score := some 1 } : Source)])) "差旅费" (2 * 2)).2 ∧
          (vecScore0 s ≠ 0 ∨ 0 < keywordScoreOf (keywordTokens "差旅费".data) s)) →
        r.sources ≠ []) :=
  ⟨by omega,
    retrieve_hybrid_bounds (fun _ _ => ("", [{ text := "差旅费报销制度", score := some 1 }])) "差旅费" 2 (by omega)⟩

/-! ### C7: blocked duplicate work orders -/

/-- **C7.**  Calling `create_work_order_tool` with `action="auto"` and
no (truthy) `duplicate_reason` while an open or in-progress work order
with the same title and resolved assignee exists returns the
blocked-duplicate message, leaves the `work_orders` table unchanged,
and does not raise (the embedding is a total function, mirroring the
tool's catch-all `except` arm). -/
theorem create_work_order_blocked_duplicate (db : FinanceDB)
    (dbPath nowStr nowMinute uuidHex6 title assignee_id : String)
    (description : Option String) (priority : String)
    (category duplicate_reason request_id : Option String)
    (emp : Employee) (ex : WorkOrder)
    (hemp : lookupAssignee db assignee_id = some emp)
    (hex : findExistingOrder db emp.employee_id title = some ex)
    (hdup : truthyS duplicate_reason = false) :
    create_work_order_tool (some db) dbPath nowStr nowMinute uuidHex6 title
      assignee_id description priority category duplicate_reason request_id
      "auto" =
    (existingInfo ex emp.name emp.employee_id ++ "系统已阻止重复创建。\n" ++
      "如需更新此工单，请设置 action=\"update_existing\" 并提供新的描述或优先级。\n" ++
      "如确需新建，请设置 action=\"create_new\" 并提供 duplicate_reason。", some db) := by
  simp only [create_work_order_tool, hemp, hex]
  rw [if_neg (by decide)]
  rw [if_neg (by decide)]
  rw [if_neg (by rintro ⟨h1, _⟩; exact absurd h1 (by decide))]
  rw [if_pos ⟨by decide, by rw [hdup]; simp⟩]

/-- **C7, witness.**  A database holding employee `E001`/张三 and an
open work order titled 修电脑 for them: the auto-mode call without a
duplicate reason is blocked and leaves the database unchanged. -/
theorem create_work_order_blocked_duplicate_witness :
    lookupAssignee
      ⟨[⟨"E001", "张三"⟩],
        [{ work_order_id := "WO1", title := "修电脑", assignee_id := "E001", status := "open", created_at := "2024-01-01" }]⟩
      "张三" = some ⟨"E001", "张三"⟩ ∧
    findExistingOrder
      ⟨[⟨"E001", "张三"⟩],
        [{ work_order_id := "WO1", title := "修电脑", assignee_id := "E001", status := "open", created_at := "2024-01-01" }]⟩
      "E001" "修电脑" =
      some { work_order_id := "WO1", title := "修电脑", assignee_id := "E001", status := "open", created_at := "2024-01-01" } ∧
    truthyS Option.none = false ∧
    create_work_order_tool
      (some ⟨[⟨"E001", "张三"⟩],
        [{ work_order_id := "WO1", title := "修电脑", assignee_id := "E001", status := "open", created_at := "2024-01-01" }]⟩)
      "finance.db" "20240101000000" "2024-01-01 00:00" "ABC123" "修电脑" "张三"
      Option.none "medium" Option.none Option.none Option.none "auto" =
    (existingInfo
        { work_order_id := "WO1", title := "修电脑", assignee_id := "E001", status := "open", created_at := "2024-01-01" }
        "张三" "E001" ++ "系统已阻止重复创建。\n" ++
      "如需更新此工单，请设置 action=\"update_existing\" 并提供新的描述或优先级。\n" ++
      "如确需新建，请设置 action=\"create_new\" 并提供 duplicate_reason。",
      some ⟨[⟨"E001", "张三"⟩],
        [{ work_order_id := "WO1", title := "修电脑", assignee_id := "E001", status := "open", created_at := "2024-01-01" }]⟩) :=
  ⟨rfl, rfl, rfl,
    create_work_order_blocked_duplicate
      ⟨[⟨"E001", "张三"⟩],
        [{ work_order_id := "WO1", title := "修电脑", assignee_id := "E001", status := "open", created_at := "2024-01-01" }]⟩
      "finance.db" "20240101000000" "2024-01-01 00:00" "ABC123" "修电脑" "张三"
      Option.none "medium" Option.none Option.none Option.none
      ⟨"E001", "张三"⟩
      { work_order_id := "WO1", title := "修电脑", assignee_id := "E001", status := "open", created_at := "2024-01-01" }
      rfl rfl rfl⟩

/-! ### C6: idempotence of the Parameter Validator

Supporting lemmas: dict operations, ASCII case/strip normalization,
digit strings, and stability of `_parse_date`. -/

theorem dGet?_dSet_self (d : PyDict) (k : String) (v : PyVal) :
    dGet? (dSet d k v) k = some v := by
  induction d with
  | nil => simp [dSet, dGet?]
  | cons p rest ih =>
      obtain ⟨a, b⟩ := p
      unfold dSet
      by_cases h : a = k
      · rw [if_pos h]
        simp [dGet?]
      · rw [if_neg h]
        unfold dGet?
        rw [List.find?_cons_of_neg _ (by simpa using h)]
        exact ih

theorem dGet?_dSet_ne (d : PyDict) (k k' : String) (v : PyVal) (h : k ≠ k') :
    dGet? (dSet d k v) k' = dGet? d k' := by
  induction d with
  | nil => simp [dSet, dGet?, h]
  | cons p rest ih =>
      obtain ⟨a, b⟩ := p
      unfold dSet
      by_cases hp : a = k
      · rw [if_pos hp]
        unfold dGet?
        rw [List.find?_cons_of_neg _ (by simpa using h),
          List.find?_cons_of_neg _ (by simpa [hp] using h)]
      · rw [if_neg hp]
        by_cases hp' : a = k'
        · unfold dGet?
          rw [List.find?_cons_of_pos _ (by simpa using hp'),
            List.find?_cons_of_pos _ (by simpa using hp')]
        · unfold dGet?
          rw [List.find?_cons_of_neg _ (by simpa using hp'),
            List.find?_cons_of_neg _ (by simpa using hp')]
          exact ih

theorem dSet_self_of_get (d : PyDict) (k : String) (v : PyVal)
    (h : dGet? d k = some v) : dSet d k v = d := by
  induction d with
  | nil => simp [dGet?] at h
  | cons p rest ih =>
      obtain ⟨a, b⟩ := p
      unfold dSet
      by_cases hp : a = k
      · rw [if_pos hp]
        unfold dGet? at h
        rw [List.find?_cons_of_pos _ (by simpa using hp)] at h
        simp at h
        rw [← hp, ← h]
      · rw [if_neg hp]
        unfold dGet? at h
        rw [List.find?_cons_of_neg _ (by simpa using hp)] at h
        rw [ih h]

theorem dGet?_dDel_self (d : PyDict) (k : String) :
    dGet? (dDel d k) k = Option.none := by
  induction d with
  | nil => simp [dDel, dGet?]
  | cons p rest ih =>
      obtain ⟨a, b⟩ := p
      unfold dDel at ih ⊢
      by_cases hp : a = k
      · rw [List.filter_cons_of_neg (by simpa using hp)]
        exact ih
      · rw [List.filter_cons_of_pos (by simpa using hp)]
        unfold dGet?
        rw [List.find?_cons_of_neg _ (by simpa using hp)]
        exact ih

theorem dMem_dSet_ne (d : PyDict) (k k' : String) (v : PyVal) (h : k ≠ k') :
    dMem (dSet d k v) k' = dMem d k' := by
  unfold dMem
  have h1 : (dSet d k v).find? (fun p => p.1 = k') =
      ((dSet d k v).find? (fun p => p.1 = k')) := rfl
  cases hx : (dSet d k v).find? (fun p => p.1 = k') with
  | none =>
      have := dGet?_dSet_ne d k k' v h
      unfold dGet? at this
      rw [hx] at this
      cases hy : d.find? (fun p => p.1 = k') with
      | none => rfl
      | some q => rw [hy] at this; simp at this
  | some q =>
      have := dGet?_dSet_ne d k k' v h
      unfold dGet? at this
      rw [hx] at this
      cases hy : d.find? (fun p => p.1 = k') with
      | none => rw [hy] at this; simp at this
      | some q' => rfl

theorem dTruthy_eq (d : PyDict) (k : String) :
    dTruthy d k = pyTruthyO (dGet? d k) := by
  unfold dTruthy pyTruthyO
  cases dGet? d k <;> rfl

/-! ASCII case and strip normalization. -/

theorem toUpper_toUpper (c : Char) : c.toUpper.toUpper = c.toUpper := by
  unfold Char.toUpper
  simp only
  by_cases h : c.toNat ≥ 97 ∧ c.toNat ≤ 122
  · rw [if_pos h]
    have hval : (Char.ofNat (c.toNat - 32)).toNat = c.toNat - 32 := by
      unfold Char.ofNat
      rw [dif_pos (Or.inl (by omega))]
      rfl
    rw [if_neg (by rw [hval]; omega)]
  · rw [if_neg h, if_neg h]

theorem isSpaceCh_toNat_le (c : Char) (h : isSpaceCh c = true) : c.toNat ≤ 32 := by
  unfold isSpaceCh at h
  simp only [Bool.or_eq_true, decide_eq_true_eq] at h
  rcases h with (((((h | h) | h) | h) | h) | h) <;> subst h <;> decide

theorem isSpaceCh_toUpper (c : Char) : isSpaceCh c.toUpper = isSpaceCh c := by
  unfold Char.toUpper
  simp only
  by_cases h : c.toNat ≥ 97 ∧ c.toNat ≤ 122
  · rw [if_pos h]
    have hval : (Char.ofNat (c.toNat - 32)).toNat = c.toNat - 32 := by
      unfold Char.ofNat
      rw [dif_pos (Or.inl (by omega))]
      rfl
    have hup : isSpaceCh (Char.ofNat (c.toNat - 32)) = false := by
      cases hb : isSpaceCh (Char.ofNat (c.toNat - 32)) with
      | false => rfl
      | true =>
          have := isSpaceCh_toNat_le _ hb
          rw [hval] at this
          omega
    have hc0 : isSpaceCh c = false := by
      cases hb : isSpaceCh c with
      | false => rfl
      | true =>
          have := isSpaceCh_toNat_le _ hb
          omega
    rw [hup, hc0]
  · rw [if_neg h]

theorem pyUpper_pyUpper (s : String) : pyUpper (pyUpper s) = pyUpper s := by
  unfold pyUpper
  apply strExt
  simp only [strData_mk, List.map_map]
  apply List.map_congr_left
  intro c _
  exact toUpper_toUpper c

theorem dropWhile_dropWhile {α : Type} (p : α → Bool) (l : List α) :
    (l.dropWhile p).dropWhile p = l.dropWhile p := by
  induction l with
  | nil => simp
  | cons a rest ih =>
      by_cases h : p a = true
      · rw [List.dropWhile_cons_of_pos h]
        exact ih
      · rw [List.dropWhile_cons_of_neg h, List.dropWhile_cons_of_neg h]

theorem length_dropWhile_le' {α : Type} (p : α → Bool) (l : List α) :
    (l.dropWhile p).length ≤ l.length := by
  induction l with
  | nil => simp
  | cons a rest ih =>
      by_cases h : p a = true
      · rw [List.dropWhile_cons_of_pos h, List.length_cons]
        omega
      · rw [List.dropWhile_cons_of_neg h]

theorem dropWhile_isSuffix {α : Type} (p : α → Bool) (l : List α) :
    ∃ r, r ++ l.dropWhile p = l := by
  induction l with
  | nil => exact ⟨[], rfl⟩
  | cons a rest ih =>
      by_cases h : p a = true
      · obtain ⟨r, hr⟩ := ih
        exact ⟨a :: r, by rw [List.dropWhile_cons_of_pos h, List.cons_append, hr]⟩
      · exact ⟨[], by rw [List.dropWhile_cons_of_neg h, List.nil_append]⟩

theorem dropWhile_eq_self_of_prefix {α : Type} (p : α → Bool) (x t l : List α)
    (hx : x ++ t = l) (hl : l.dropWhile p = l) : x.dropWhile p = x := by
  cases x with
  | nil => rfl
  | cons a s =>
      have ha : ¬ p a = true := by
        intro hb
        rw [← hx, List.cons_append, List.dropWhile_cons_of_pos hb] at hl
        have hlen := congrArg List.length hl
        rw [List.length_cons] at hlen
        have hle := length_dropWhile_le' p (s ++ t)
        omega
      rw [List.dropWhile_cons_of_neg ha]

theorem pyStrip_pyStrip (s : String) : pyStrip (pyStrip s) = pyStrip s := by
  unfold pyStrip
  apply strExt
  simp only [strData_mk]
  obtain ⟨r, hr⟩ :=
    dropWhile_isSuffix isSpaceCh (s.data.dropWhile isSpaceCh).reverse
  have hx : ((s.data.dropWhile isSpaceCh).reverse.dropWhile isSpaceCh).reverse
        ++ r.reverse = s.data.dropWhile isSpaceCh := by
    rw [← List.reverse_append, hr, List.reverse_reverse]
  have h1 : (((s.data.dropWhile isSpaceCh).reverse.dropWhile
        isSpaceCh).reverse).dropWhile isSpaceCh
      = ((s.data.dropWhile isSpaceCh).reverse.dropWhile isSpaceCh).reverse :=
    dropWhile_eq_self_of_prefix isSpaceCh _ _ _ hx
      (dropWhile_dropWhile isSpaceCh s.data)
  rw [h1, List.reverse_reverse,
    dropWhile_dropWhile isSpaceCh (s.data.dropWhile isSpaceCh).reverse]

theorem dropWhile_map {α β : Type} (p : β → Bool) (f : α → β) (l : List α) :
    (l.map f).dropWhile p = (l.dropWhile (fun a => p (f a))).map f := by
  induction l with
  | nil => simp
  | cons a rest ih =>
      simp only [List.map_cons, List.dropWhile_cons]
      by_cases h : p (f a) = true
      · simp [h, ih]
      · simp [h]

theorem pyStrip_pyUpper (s : String) :
    pyStrip (pyUpper s) = pyUpper (pyStrip s) := by
  unfold pyStrip pyUpper
  apply strExt
  simp only [strData_mk]
  have hsp : (fun a => isSpaceCh (Char.toUpper a)) = isSpaceCh := by
    funext a
    exact isSpaceCh_toUpper a
  rw [dropWhile_map, hsp, ← List.map_reverse, dropWhile_map, hsp,
    ← List.map_reverse]

/-- The strip-uppercase normalization applied twice. -/
theorem normUS_fix (s : String) :
    pyUpper (pyStrip (pyUpper (pyStrip s))) = pyUpper (pyStrip s) := by
  rw [pyStrip_pyUpper, pyUpper_pyUpper, pyStrip_pyStrip]

theorem strStartsWith_ne_empty (s pre : String) (hpre : pre ≠ "")
    (h : strStartsWith s pre = true) : s ≠ "" := by
  unfold strStartsWith at h
  intro hs
  subst hs
  cases hp : pre.data with
  | nil => exact hpre (strExt hp)
  | cons a rest => rw [hp] at h; simp [isPre] at h

/-! Digit strings produced by `natToStr`/`pad2`. -/

theorem isDig_toNat (c : Char) (h : isDig c = true) :
    48 ≤ c.toNat ∧ c.toNat ≤ 57 := by
  unfold isDig Char.isDigit at h
  simp only [Bool.and_eq_true, decide_eq_true_eq] at h
  exact h

theorem isDig_ne (c : Char) (h : isDig c = true) (d : Char)
    (hd : d.toNat < 48 ∨ 57 < d.toNat) : ¬ c = d := by
  intro he
  subst he
  have := isDig_toNat c h
  omega

theorem isDig_digCh (k : Nat) : isDig (digCh k) = true := by
  unfold digCh
  have h : k % 10 < 10 := Nat.mod_lt _ (by omega)
  generalize k % 10 = j at h ⊢
  interval_cases j <;> decide

theorem digCh_toNat (k : Nat) : (digCh k).toNat = 48 + k % 10 := by
  unfold digCh
  have h : k % 10 < 10 := Nat.mod_lt _ (by omega)
  generalize k % 10 = j at h ⊢
  interval_cases j <;> decide

theorem natToCharsAux_digits (fuel : Nat) :
    ∀ n c, c ∈ natToCharsAux fuel n → isDig c = true := by
  induction fuel with
  | zero => intro n c hc; simp [natToCharsAux] at hc
  | succ f ih =>
      intro n c hc
      unfold natToCharsAux at hc
      by_cases h : n < 10
      · rw [if_pos h] at hc
        simp at hc
        subst hc
        exact isDig_digCh n
      · rw [if_neg h] at hc
        rw [List.mem_append] at hc
        rcases hc with hc | hc
        · exact ih _ c hc
        · simp at hc
          subst hc
          exact isDig_digCh _

theorem natToChars_digits (n : Nat) :
    ∀ c ∈ natToChars n, isDig c = true := by
  intro c hc
  exact natToCharsAux_digits (n + 1) n c hc

theorem natToCharsAux_ne_nil (fuel n : Nat) (hf : 0 < fuel) :
    natToCharsAux fuel n ≠ [] := by
  cases fuel with
  | zero => omega
  | succ f =>
      unfold natToCharsAux
      by_cases h : n < 10
      · rw [if_pos h]; simp
      · rw [if_neg h]; simp

theorem natToChars_ne_nil (n : Nat) : natToChars n ≠ [] :=
  natToCharsAux_ne_nil (n + 1) n (by omega)

theorem natToCharsAux_small (fuel n : Nat) (hf : 0 < fuel) (h : n < 10) :
    natToCharsAux fuel n = [digCh n] := by
  cases fuel with
  | zero => omega
  | succ f =>
      unfold natToCharsAux
      rw [if_pos h]

theorem natToChars_small (n : Nat) (h : n < 10) : natToChars n = [digCh n] :=
  natToCharsAux_small (n + 1) n (by omega) h

theorem natToChars_two (n : Nat) (h10 : 10 ≤ n) (h : n < 100) :
    natToChars n = [digCh (n / 10), digCh (n % 10)] := by
  unfold natToChars
  conv_lhs => rw [natToCharsAux]
  rw [if_neg (by omega)]
  rw [natToCharsAux_small n (n / 10) (by omega) (by omega)]
  rfl

theorem natToCharsAux_len (fuel : Nat) :
    ∀ n k, n < 10 ^ k → 1 ≤ k → (natToCharsAux fuel n).length ≤ k := by
  induction fuel with
  | zero => intro n k _ _; simp [natToCharsAux]
  | succ f ih =>
      intro n k hn hk
      unfold natToCharsAux
      by_cases h : n < 10
      · rw [if_pos h]
        simpa using hk
      · rw [if_neg h]
        rw [List.length_append]
        cases k with
        | zero => omega
        | succ k' =>
            have hk' : 1 ≤ k' := by
              by_contra hc
              have : k' = 0 := by omega
              subst this
              simp [pow_succ] at hn
              omega
            have hdiv : n / 10 < 10 ^ k' := by
              rw [Nat.div_lt_iff_lt_mul (by omega)]
              calc n < 10 ^ (k' + 1) := hn
                _ = 10 ^ k' * 10 := by rw [pow_succ]
            have := ih (n / 10) k' hdiv hk'
            simp only [List.length_cons, List.length_nil]
            omega

theorem natToChars_len4 (n : Nat) (h : n ≤ 9999) :
    (natToChars n).length ≤ 4 :=
  natToCharsAux_len (n + 1) n 4 (by norm_num; omega) (by omega)

theorem pad2_eq_natToStr (n : Nat) (h : 10 ≤ n) : pad2 n = natToStr n := by
  unfold pad2
  rw [if_neg (by omega)]

theorem pad2_shape (n : Nat) (h : n < 100) :
    ∃ c1 c2, (pad2 n).data = [c1, c2] ∧ isDig c1 = true ∧ isDig c2 = true := by
  by_cases h10 : n < 10
  · refine ⟨'0', digCh n, ?_, by decide, isDig_digCh n⟩
    unfold pad2
    rw [if_pos h10]
    rw [String.data_append]
    unfold natToStr
    rw [strData_mk, natToChars_small n h10]
    rfl
  · refine ⟨digCh (n / 10), digCh (n % 10), ?_, isDig_digCh _, isDig_digCh _⟩
    unfold pad2
    rw [if_neg h10]
    unfold natToStr
    rw [strData_mk, natToChars_two n (by omega) h]

/-! Values of digit strings. -/

theorem natOfDigits_one (a : Char) : natOfDigits [a] = a.toNat - 48 := by
  simp [natOfDigits, List.foldl]

theorem natOfDigits_two (a b : Char) :
    natOfDigits [a, b] = (a.toNat - 48) * 10 + (b.toNat - 48) := by
  simp [natOfDigits, List.foldl]

theorem natOfDigits_four_le (a b c d : Char) (ha : isDig a = true)
    (hb : isDig b = true) (hc : isDig c = true) (hd : isDig d = true) :
    natOfDigits [a, b, c, d] ≤ 9999 := by
  have h1 := isDig_toNat a ha
  have h2 := isDig_toNat b hb
  have h3 := isDig_toNat c hc
  have h4 := isDig_toNat d hd
  simp only [natOfDigits, List.foldl, show ('0').toNat = 48 from rfl]
  omega

theorem isDig_dash : isDig '-' = false := rfl

theorem parseDateStr_shape_fixed (ys : List Char) (m1 m2 d1 d2 : Char)
    (hys : ys ≠ []) (hlen : ys.length ≤ 4) (hd : ∀ c ∈ ys, isDig c = true)
    (hm1 : isDig m1 = true) (hm2 : isDig m2 = true)
    (hd1 : isDig d1 = true) (hd2 : isDig d2 = true) :
    parseDateStr ⟨ys ++ '-' :: m1 :: m2 :: '-' :: [d1, d2]⟩
      = ⟨ys ++ '-' :: m1 :: m2 :: '-' :: [d1, d2]⟩ := by
  rcases ys with _ | ⟨a, _ | ⟨b, _ | ⟨c, _ | ⟨d, _ | ⟨e, tl⟩⟩⟩⟩⟩
  · exact absurd rfl hys
  · -- ys = [a]
    have ha := hd a (by simp)
    simp only [List.cons_append, List.nil_append]
    unfold parseDateStr
    have hpre : matchesYMDPrefix ⟨[a, '-', m1, m2, '-', d1, d2]⟩ = false := rfl
    rw [hpre, if_neg Bool.false_ne_true]
    have h1 : strpDate ⟨[a, '-', m1, m2, '-', d1, d2]⟩ '-' '-' [] = Option.none := by
      simp only [strpDate]
      rw [if_neg (fun h => Bool.false_ne_true h.2.1)]
    have h2 : strpDate ⟨[a, '-', m1, m2, '-', d1, d2]⟩ '/' '/' [] = Option.none := by
      simp only [strpDate]
      rw [if_neg (fun h => Bool.false_ne_true h.2.1)]
    have h3 : strpDate ⟨[a, '-', m1, m2, '-', d1, d2]⟩ '年' '月' ['日'] = Option.none := by
      simp only [strpDate]
      rw [if_neg (fun h => Bool.false_ne_true h.2.1)]
    rw [h1, h2, h3]
  · -- ys = [a, b]
    have ha := hd a (by simp)
    have hb := hd b (by simp)
    simp only [List.cons_append, List.nil_append]
    have hpre : matchesYMDPrefix ⟨[a, b, '-', m1, m2, '-', d1, d2]⟩ = false := rfl
    unfold parseDateStr
    rw [hpre, if_neg Bool.false_ne_true]
    have h1 : strpDate ⟨[a, b, '-', m1, m2, '-', d1, d2]⟩ '-' '-' [] = Option.none := by
      simp only [strpDate]
      rw [if_neg (fun h => Bool.false_ne_true h.2.2.1)]
    have h2 : strpDate ⟨[a, b, '-', m1, m2, '-', d1, d2]⟩ '/' '/' [] = Option.none := by
      simp only [strpDate]
      rw [if_neg (fun h => Bool.false_ne_true h.2.2.1)]
    have h3 : strpDate ⟨[a, b, '-', m1, m2, '-', d1, d2]⟩ '年' '月' ['日'] = Option.none := by
      simp only [strpDate]
      rw [if_neg (fun h => Bool.false_ne_true h.2.2.1)]
    rw [h1, h2, h3]
  · -- ys = [a, b, c]
    have ha := hd a (by simp)
    have hb := hd b (by simp)
    have hc := hd c (by simp)
    simp only [List.cons_append, List.nil_append]
    have hpre : matchesYMDPrefix ⟨[a, b, c, '-', m1, m2, '-', d1, d2]⟩ = false := rfl
    unfold parseDateStr
    rw [hpre, if_neg Bool.false_ne_true]
    have h1 : strpDate ⟨[a, b, c, '-', m1, m2, '-', d1, d2]⟩ '-' '-' [] = Option.none := by
      simp only [strpDate]
      rw [if_neg (fun h => Bool.false_ne_true h.2.2.2.1)]
    have h2 : strpDate ⟨[a, b, c, '-', m1, m2, '-', d1, d2]⟩ '/' '/' [] = Option.none := by
      simp only [strpDate]
      rw [if_neg (fun h => Bool.false_ne_true h.2.2.2.1)]
    have h3 : strpDate ⟨[a, b, c, '-', m1, m2, '-', d1, d2]⟩ '年' '月' ['日'] = Option.none := by
      simp only [strpDate]
      rw [if_neg (fun h => Bool.false_ne_true h.2.2.2.1)]
    rw [h1, h2, h3]
  · -- ys = [a, b, c, d]
    have ha := hd a (by simp)
    have hb := hd b (by simp)
    have hc := hd c (by simp)
    have hd4 := hd d (by simp)
    simp only [List.cons_append, List.nil_append]
    have hpre : matchesYMDPrefix ⟨[a, b, c, d, '-', m1, m2, '-', d1, d2]⟩ = true := by
      simp only [matchesYMDPrefix]
      simp [isDig] at ha hb hc hd4 hm1 hm2 hd1 hd2 ⊢
      tauto
    unfold parseDateStr
    rw [hpre, if_pos rfl]
  · simp at hlen

/-! Substring tests on digit-dash strings. -/

theorem isInf_mem {α : Type} [DecidableEq α] (c : α) (cs l : List α)
    (h : isInf (c :: cs) l = true) : c ∈ l := by
  induction l with
  | nil => simp [isInf, isPre] at h
  | cons b bs ih =>
      unfold isInf at h
      rw [Bool.or_eq_true] at h
      rcases h with h | h
      · unfold isPre at h
        rw [Bool.and_eq_true] at h
        have : c = b := by simpa using h.1
        subst this
        exact List.mem_cons_self c bs
      · exact List.mem_cons_of_mem b (ih h)

theorem noMonth_of_digdash (l : List Char)
    (hall : ∀ c ∈ l, isDig c = true ∨ c = '-') :
    strContains ⟨l⟩ "月" = false ∧ strContains ⟨l⟩ "month" = false := by
  constructor
  · cases hc : strContains ⟨l⟩ "月" with
    | false => rfl
    | true =>
        unfold strContains at hc
        have hm : '月' ∈ l := isInf_mem _ _ _ hc
        rcases hall _ hm with h | h
        · exact absurd h (by decide)
        · exact absurd h (by decide)
  · cases hc : strContains ⟨l⟩ "month" with
    | false => rfl
    | true =>
        unfold strContains at hc
        have hm : 'm' ∈ l := isInf_mem _ _ _ hc
        rcases hall _ hm with h | h
        · exact absurd h (by decide)
        · exact absurd h (by decide)

/-- The strings assembled by `fmtYMD` (and, through it, by the date
branches of the extractor) are fixed points of `parseDateStr` and
contain neither `月` nor `month`. -/
theorem fmtYMD_props (y m d : Nat) (hy : y ≤ 9999) (hm : m < 100) (hd : d < 100) :
    parseDateStr (fmtYMD y m d) = fmtYMD y m d ∧
    strContains (fmtYMD y m d) "月" = false ∧
    strContains (fmtYMD y m d) "month" = false := by
  obtain ⟨m1, m2, hmd, hm1, hm2⟩ := pad2_shape m hm
  obtain ⟨e1, e2, hed, he1, he2⟩ := pad2_shape d hd
  have hdata : (fmtYMD y m d).data
      = natToChars y ++ '-' :: m1 :: m2 :: '-' :: [e1, e2] := by
    unfold fmtYMD
    simp only [String.data_append, hmd, hed]
    simp [List.append_assoc, natToStr, strData_mk]
  have hstr : fmtYMD y m d = ⟨natToChars y ++ '-' :: m1 :: m2 :: '-' :: [e1, e2]⟩ :=
    strExt hdata
  have hall : ∀ c ∈ natToChars y ++ '-' :: m1 :: m2 :: '-' :: [e1, e2],
      isDig c = true ∨ c = '-' := by
    intro c hc
    rw [List.mem_append] at hc
    rcases hc with hc | hc
    · exact Or.inl (natToChars_digits y c hc)
    · simp at hc
      rcases hc with rfl | rfl | rfl | rfl | rfl | rfl <;> tauto
  refine ⟨?_, ?_, ?_⟩
  · rw [hstr]
    exact parseDateStr_shape_fixed (natToChars y) m1 m2 e1 e2
      (natToChars_ne_nil y) (natToChars_len4 y hy) (natToChars_digits y)
      hm1 hm2 he1 he2
  · rw [hstr]
    exact (noMonth_of_digdash _ hall).1
  · rw [hstr]
    exact (noMonth_of_digdash _ hall).2

theorem parseDayEnd_bounds (l suffix : List Char) (v : Nat)
    (h : parseDayEnd l suffix = some v) : 1 ≤ v ∧ v ≤ 31 := by
  unfold parseDayEnd at h
  split at h
  · -- l = d1 :: d2 :: rest
    rename_i d1 d2 rest
    split at h
    · rename_i hco
      have h' : (if (30 ≤ natOfDigits [d1, d2] ∧ natOfDigits [d1, d2] ≤ 31) ∨
            (10 ≤ natOfDigits [d1, d2] ∧ natOfDigits [d1, d2] ≤ 29) ∨
            (1 ≤ natOfDigits [d1, d2] ∧ natOfDigits [d1, d2] ≤ 9) then
            some (natOfDigits [d1, d2])
          else if isDig d1 = true ∧ natOfDigits [d1] ≥ 1 ∧ d2 :: rest = suffix then
            some (natOfDigits [d1])
          else Option.none) = some v := h
      clear h
      split at h'
      · rename_i hrange
        cases h'
        omega
      · split at h'
        · rename_i hone
          cases h'
          have := isDig_toNat d1 hone.1
          rw [natOfDigits_one] at hone ⊢
          omega
        · cases h'
    · split at h
      · rename_i hone
        cases h
        have := isDig_toNat d1 hone.1
        rw [natOfDigits_one] at hone ⊢
        omega
      · cases h
  · -- l = [d1]
    rename_i d1
    split at h
    · rename_i hone
      cases h
      have := isDig_toNat d1 hone.1
      rw [natOfDigits_one] at hone ⊢
      omega
    · cases h
  · cases h

theorem oneDigitMonthBounds (m1 : Char) (rest : List Char) (sep2 : Char)
    (suffix : List Char) (m d : Nat)
    (h : (if isDig m1 = true ∧ natOfDigits [m1] ≥ 1 then
        match rest with
        | c :: rest' =>
            if c = sep2 then
              (parseDayEnd rest' suffix).map (fun d => (natOfDigits [m1], d))
            else Option.none
        | [] => Option.none
      else Option.none) = some (m, d)) : 1 ≤ m ∧ m ≤ 12 ∧ 1 ≤ d ∧ d ≤ 31 := by
  split at h
  · rename_i hco
    split at h
    · rename_i c rest'
      split at h
      · rw [Option.map_eq_some'] at h
        obtain ⟨d0, hd0, heq⟩ := h
        injection heq with h1 h2
        subst h1
        subst h2
        have := isDig_toNat m1 hco.1
        have hb := parseDayEnd_bounds rest' suffix _ hd0
        rw [natOfDigits_one] at hco ⊢
        refine ⟨?_, ?_, hb.1, hb.2⟩ <;> omega
      · cases h
    · cases h
  · cases h

theorem parseMonthRest_bounds (l : List Char) (sep2 : Char) (suffix : List Char)
    (m d : Nat) (h : parseMonthRest l sep2 suffix = some (m, d)) :
    1 ≤ m ∧ m ≤ 12 ∧ 1 ≤ d ∧ d ≤ 31 := by
  unfold parseMonthRest at h
  simp only [] at h
  split at h
  · rename_i m1 m2 rest
    split at h
    · rename_i hco
      split at h
      · rename_i c rest'
        split at h
        · rename_i hcsep
          split at h
          · rename_i r heqmap
            cases h
            rw [Option.map_eq_some'] at heqmap
            obtain ⟨d0, hd0, heq⟩ := heqmap
            injection heq with h1 h2
            subst h1
            subst h2
            have hb := parseDayEnd_bounds rest' suffix _ hd0
            rcases hco.2.2 with hv | hv
            · exact ⟨by omega, by omega, hb.1, hb.2⟩
            · exact ⟨by omega, by omega, hb.1, hb.2⟩
          · rename_i heqmap
            exact oneDigitMonthBounds m1 (m2 :: c :: rest') sep2 suffix m d h
        · exact oneDigitMonthBounds m1 (m2 :: c :: rest') sep2 suffix m d h
      · exact oneDigitMonthBounds m1 [m2] sep2 suffix m d h
    · exact oneDigitMonthBounds m1 (m2 :: rest) sep2 suffix m d h
  · rename_i hnc
    cases l with
    | nil => exact Option.noConfusion h
    | cons a tl =>
        cases tl with
        | nil => exact oneDigitMonthBounds a [] sep2 suffix m d h
        | cons b tl' => exact absurd rfl (hnc a b tl')

theorem strpDate_bounds (s : String) (sep1 sep2 : Char) (suffix : List Char)
    (y m d : Nat) (h : strpDate s sep1 sep2 suffix = some (y, m, d)) :
    1 ≤ y ∧ y ≤ 9999 ∧ 1 ≤ m ∧ m ≤ 12 ∧ 1 ≤ d ∧ d ≤ 31 := by
  unfold strpDate at h
  split at h
  · rename_i y1 y2 y3 y4 c rest heq
    split at h
    · rename_i hco
      split at h
      · rename_i m0 d0 hmr
        have h' : (if 1 ≤ natOfDigits [y1, y2, y3, y4] ∧ 1 ≤ d0 ∧
              d0 ≤ daysInMonth (natOfDigits [y1, y2, y3, y4]) m0 then
              some (natOfDigits [y1, y2, y3, y4], m0, d0)
            else Option.none) = some (y, m, d) := h
        clear h
        split at h'
        · rename_i hcal
          injection h' with h''
          injection h'' with hy' hmd'
          injection hmd' with hm' hd'
          subst hy'
          subst hm'
          subst hd'
          have hb := parseMonthRest_bounds rest sep2 suffix _ _ hmr
          have h9 := natOfDigits_four_le y1 y2 y3 y4 hco.1 hco.2.1 hco.2.2.1 hco.2.2.2.1
          exact ⟨hcal.1, h9, hb.1, hb.2.1, hcal.2.1, hb.2.2.2⟩
        · cases h'
      · cases h
    · cases h
  · cases h

/-- `parseDateStr` either returns its argument or a `fmtYMD` rendering
of an in-range date. -/
theorem parseDateStr_cases (s : String) :
    parseDateStr s = s ∨
    ∃ y m d, parseDateStr s = fmtYMD y m d ∧ y ≤ 9999 ∧ m ≤ 12 ∧ d ≤ 31 := by
  unfold parseDateStr
  split
  · exact Or.inl rfl
  · split
    · rename_i y m d hs
      have hb := strpDate_bounds _ _ _ _ _ _ _ hs
      exact Or.inr ⟨y, m, d, rfl, hb.2.1, hb.2.2.2.1, hb.2.2.2.2.2⟩
    · split
      · rename_i y m d hs
        have hb := strpDate_bounds _ _ _ _ _ _ _ hs
        exact Or.inr ⟨y, m, d, rfl, hb.2.1, hb.2.2.2.1, hb.2.2.2.2.2⟩
      · split
        · rename_i y m d hs
          have hb := strpDate_bounds _ _ _ _ _ _ _ hs
          exact Or.inr ⟨y, m, d, rfl, hb.2.1, hb.2.2.2.1, hb.2.2.2.2.2⟩
        · exact Or.inl rfl

/-- `parseDateStr` is idempotent. -/
theorem parseDateStr_idem (s : String) :
    parseDateStr (parseDateStr s) = parseDateStr s := by
  rcases parseDateStr_cases s with h | ⟨y, m, d, h, hy, hm, hd⟩
  · rw [h, h]
  · rw [h]
    exact (fmtYMD_props y m d hy (by omega) (by omega)).1

/-! `_parse_date` on values it has already processed. -/

theorem dTruthy_iff (d : PyDict) (k : String) :
    dTruthy d k = true ↔ ∃ v, dGet? d k = some v ∧ v.truthy = true := by
  unfold dTruthy
  cases hv : dGet? d k with
  | none => simp
  | some v => simp

theorem dTruthy_congr {d d' : PyDict} {k : String}
    (h : dGet? d k = dGet? d' k) : dTruthy d k = dTruthy d' k := by
  unfold dTruthy
  rw [h]

theorem dMem_of_dGet? (d : PyDict) (k : String) (v : PyVal)
    (h : dGet? d k = some v) : dMem d k = true := by
  unfold dGet? at h
  unfold dMem
  cases hf : d.find? (fun p => p.1 = k) with
  | none => rw [hf] at h; cases h
  | some q => rfl

theorem dMem_dSet_self (d : PyDict) (k : String) (v : PyVal) :
    dMem (dSet d k v) k = true :=
  dMem_of_dGet? _ _ _ (dGet?_dSet_self d k v)

theorem parse_date_ok_cases (v w : PyVal) (h : parse_date v = .ok w) :
    (v.truthy = false ∧ w = v) ∨ ∃ s, v = .str s ∧ w = .str (parseDateStr s) := by
  unfold parse_date at h
  split at h
  · rename_i hnt
    left
    injection h with h1
    subst h1
    exact ⟨by simpa using hnt, rfl⟩
  · split at h
    · rename_i s hx
      injection h with h1
      exact Or.inr ⟨s, rfl, h1.symm⟩
    · cases h

theorem parse_date_val_fixed (v w : PyVal) (h : parse_date v = .ok w)
    (hw : w.truthy = true) : ∃ s, w = .str s ∧ parseDateStr s = s := by
  rcases parse_date_ok_cases v w h with ⟨hf, rfl⟩ | ⟨s, rfl, rfl⟩
  · rw [hf] at hw
    cases hw
  · exact ⟨parseDateStr s, rfl, parseDateStr_idem s⟩

theorem parse_date_falsy (v : PyVal) (hv : v.truthy = false) :
    parse_date v = .ok v := by
  unfold parse_date
  rw [if_pos (by simp [hv])]

theorem parse_date_fixed_eval (s : String) (hs : parseDateStr s = s)
    (hne : (PyVal.str s).truthy = true) :
    parse_date (.str s) = .ok (.str s) := by
  unfold parse_date
  rw [if_neg (by simp [hne])]
  simp [hs]

/-! The date strings assembled by `extract_date_range`, rewritten as
`fmtYMD` renderings. -/

theorem fmt_dash01 (y mo : Nat) :
    natToStr y ++ "-" ++ pad2 mo ++ "-01" = fmtYMD y mo 1 := by
  unfold fmtYMD
  apply strExt
  have h1 : ("-01" : String).data = ['-', '0', '1'] := rfl
  have h2 : (pad2 1).data = ['0', '1'] := rfl
  have h3 : ("-" : String).data = ['-'] := rfl
  simp only [String.data_append, h1, h2, h3]
  simp [List.append_assoc]

theorem fmt_day (y mo dd : Nat) (hd : 10 ≤ dd) :
    natToStr y ++ "-" ++ pad2 mo ++ "-" ++ natToStr dd = fmtYMD y mo dd := by
  unfold fmtYMD
  rw [pad2_eq_natToStr dd hd]

theorem fmt_const01 (y : Nat) : natToStr y ++ "-01-01" = fmtYMD y 1 1 := by
  unfold fmtYMD
  apply strExt
  have h1 : ("-01-01" : String).data = ['-', '0', '1', '-', '0', '1'] := rfl
  have h2 : (pad2 1).data = ['0', '1'] := rfl
  have h3 : ("-" : String).data = ['-'] := rfl
  simp only [String.data_append, h1, h2, h3]
  simp [List.append_assoc]

theorem fmt_const0630 (y : Nat) : natToStr y ++ "-06-30" = fmtYMD y 6 30 := by
  unfold fmtYMD
  apply strExt
  have h1 : ("-06-30" : String).data = ['-', '0', '6', '-', '3', '0'] := rfl
  have h2 : (pad2 6).data = ['0', '6'] := rfl
  have h2' : (pad2 30).data = ['3', '0'] := rfl
  have h3 : ("-" : String).data = ['-'] := rfl
  simp only [String.data_append, h1, h2, h2', h3]
  simp [List.append_assoc]

theorem fmt_const0701 (y : Nat) : natToStr y ++ "-07-01" = fmtYMD y 7 1 := by
  unfold fmtYMD
  apply strExt
  have h1 : ("-07-01" : String).data = ['-', '0', '7', '-', '0', '1'] := rfl
  have h2 : (pad2 7).data = ['0', '7'] := rfl
  have h2' : (pad2 1).data = ['0', '1'] := rfl
  have h3 : ("-" : String).data = ['-'] := rfl
  simp only [String.data_append, h1, h2, h2', h3]
  simp [List.append_assoc]

theorem fmt_const1231 (y : Nat) : natToStr y ++ "-12-31" = fmtYMD y 12 31 := by
  unfold fmtYMD
  apply strExt
  have h1 : ("-12-31" : String).data = ['-', '1', '2', '-', '3', '1'] := rfl
  have h2 : (pad2 12).data = ['1', '2'] := rfl
  have h2' : (pad2 31).data = ['3', '1'] := rfl
  have h3 : ("-" : String).data = ['-'] := rfl
  simp only [String.data_append, h1, h2, h2', h3]
  simp [List.append_assoc]

theorem daysInMonth_bounds (y m : Nat) :
    28 ≤ daysInMonth y m ∧ daysInMonth y m ≤ 31 := by
  unfold daysInMonth
  split
  · split <;> omega
  · split <;> omega

theorem predDay_first_day (y mo : Nat) :
    28 ≤ (predDay ⟨y, mo, 1⟩).day ∧ (predDay ⟨y, mo, 1⟩).day ≤ 31 := by
  unfold predDay
  simp only
  rw [if_neg (by omega)]
  split
  · exact daysInMonth_bounds y (mo - 1)
  · exact (by decide : 28 ≤ 31 ∧ 31 ≤ 31)

theorem fmtYMD_good (y m d : Nat) (hy : y ≤ 9999) (hm : m < 100) (hd : d < 100) :
    goodDateStr (fmtYMD y m d) := fmtYMD_props y m d hy hm hd

/-- Every non-null result of the fallthrough branches of
`extract_date_range` carries a start and end date in normal form. -/
theorem extract_rest_shape (now : PyDate) (t : String) (hy : now.year ≤ 9999)
    (hm' : now.month ≤ 12) :
    extractDateRangeRest now t = {} ∨
    ∃ s e mo yr, extractDateRangeRest now t =
        { start_date := some s, end_date := some e, month := mo, year := yr } ∧
      goodDateStr s ∧ goodDateStr e := by
  unfold extractDateRangeRest
  split
  · right
    refine ⟨_, _, Option.none, Option.none, rfl, ?_, ?_⟩
    · rw [fmt_const01]
      exact fmtYMD_good _ 1 1 hy (by omega) (by omega)
    · rw [fmt_const0630]
      exact fmtYMD_good _ 6 30 hy (by omega) (by omega)
  · split
    · right
      refine ⟨_, _, Option.none, Option.none, rfl, ?_, ?_⟩
      · rw [fmt_const0701]
        exact fmtYMD_good _ 7 1 hy (by omega) (by omega)
      · rw [fmt_const1231]
        exact fmtYMD_good _ 12 31 hy (by omega) (by omega)
    · split
      · right
        have hLM : (if now.month = 1 then 12 else now.month - 1) < 100 := by
          split <;> omega
        have hLY : (if now.month = 1 then now.year - 1 else now.year) ≤ 9999 := by
          split <;> omega
        have hld := predDay_first_day now.year now.month
        refine ⟨_, _, _, _, rfl, ?_, ?_⟩
        · rw [fmt_dash01]
          exact fmtYMD_good _ _ 1 hLY hLM (by omega)
        · rw [fmt_day _ _ _ (by omega)]
          exact fmtYMD_good _ _ _ hLY hLM (by omega)
      · split
        · right
          refine ⟨_, _, _, _, rfl, ?_, ?_⟩
          · rw [fmt_dash01]
            exact fmtYMD_good _ _ 1 hy (by omega) (by omega)
          · split
            · rw [fmt_const1231]
              exact fmtYMD_good _ 12 31 hy (by omega) (by omega)
            · have hpd := predDay_first_day now.year (now.month + 1)
              rw [fmt_day _ _ _ (by omega)]
              exact fmtYMD_good _ _ _ hy (by omega) (by omega)
        · left
          rfl

/-- Every non-null result of `extract_date_range` carries a start and
end date in normal form. -/
theorem extract_shape (now : PyDate) (t : String) (hy : now.year ≤ 9999)
    (hm' : now.month ≤ 12) :
    extract_date_range now t = {} ∨
    ∃ s e mo yr, extract_date_range now t =
        { start_date := some s, end_date := some e, month := mo, year := yr } ∧
      goodDateStr s ∧ goodDateStr e := by
  unfold extract_date_range
  split
  · rename_i digits hrun
    simp only []
    split
    · rename_i hmo
      right
      refine ⟨_, _, _, _, rfl, ?_, ?_⟩
      · rw [fmt_dash01]
        exact fmtYMD_good _ _ 1 hy (by omega) (by omega)
      · split
        · rw [fmt_const1231]
          exact fmtYMD_good _ 12 31 hy (by omega) (by omega)
        · have hpd := predDay_first_day now.year (natOfDigits digits + 1)
          rw [fmt_day _ _ _ (by omega)]
          exact fmtYMD_good _ _ _ hy (by omega) (by omega)
    · exact extract_rest_shape now t hy hm'
  · exact extract_rest_shape now t hy hm'

/-! Idempotence of the per-tool branches of the validator. -/

theorem dGet?_of_dMem (d : PyDict) (k : String) (h : dMem d k = true) :
    ∃ v, dGet? d k = some v := by
  unfold dMem at h
  unfold dGet?
  cases hf : d.find? (fun p => p.1 = k) with
  | none => rw [hf] at h; cases h
  | some q => exact ⟨q.2, rfl⟩

theorem getD_some_str_toStr (s : String) :
    ((some (PyVal.str s)).getD PyVal.none).toStr = s := rfl

theorem vfpEmployeeInfo_idem (fp : PyDict) :
    vfpEmployeeInfo (vfpEmployeeInfo fp) = vfpEmployeeInfo fp := by
  by_cases h1 : dTruthy fp "employee_id" = true
  · by_cases h2 : strStartsWith
        (pyUpper (pyStrip ((dGet? fp "employee_id").getD PyVal.none).toStr)) "E" = true
    · -- normalized id starts with E: the branch re-stores it
      have hout : vfpEmployeeInfo fp = dSet fp "employee_id"
          (.str (pyUpper (pyStrip ((dGet? fp "employee_id").getD PyVal.none).toStr))) := by
        unfold vfpEmployeeInfo
        simp only []
        rw [if_pos h1, if_neg (not_not_intro h2)]
      rw [hout]
      have hget := dGet?_dSet_self fp "employee_id"
        (.str (pyUpper (pyStrip ((dGet? fp "employee_id").getD PyVal.none).toStr)))
      have hne : pyUpper (pyStrip ((dGet? fp "employee_id").getD PyVal.none).toStr) ≠ "" :=
        strStartsWith_ne_empty _ "E" (by decide) h2
      unfold vfpEmployeeInfo
      simp only []
      rw [if_pos ((dTruthy_iff _ _).mpr ⟨_, hget, by simp [PyVal.truthy, hne]⟩)]
      rw [hget, getD_some_str_toStr, normUS_fix]
      rw [if_neg (not_not_intro h2)]
      exact dSet_self_of_get _ _ _ hget
    · by_cases h3 : dTruthy fp "name" = true
      · -- id malformed but a name is present: dict unchanged
        have hout : vfpEmployeeInfo fp = fp := by
          unfold vfpEmployeeInfo
          simp only []
          rw [if_pos h1, if_pos h2, if_neg (not_not_intro h3)]
        rw [hout]
        exact hout
      · -- id moved to the name field and removed
        have hout : vfpEmployeeInfo fp = dDel (dSet fp "name"
            (.str (pyUpper (pyStrip ((dGet? fp "employee_id").getD PyVal.none).toStr))))
            "employee_id" := by
          unfold vfpEmployeeInfo
          simp only []
          rw [if_pos h1, if_pos h2, if_pos h3]
        rw [hout]
        have hfalse : dTruthy (dDel (dSet fp "name"
            (.str (pyUpper (pyStrip ((dGet? fp "employee_id").getD PyVal.none).toStr))))
            "employee_id") "employee_id" = false := by
          unfold dTruthy
          rw [dGet?_dDel_self]
        unfold vfpEmployeeInfo
        rw [if_neg (by simp [hfalse])]
  · have hout : vfpEmployeeInfo fp = fp := by
      unfold vfpEmployeeInfo
      rw [if_neg h1]
    rw [hout]
    exact hout

theorem vfpWorkOrder_idem (fp ctx : PyDict) (hctx : ctxAssigneeStable ctx) :
    vfpWorkOrder (vfpWorkOrder fp ctx) ctx = vfpWorkOrder fp ctx := by
  by_cases h1 : dMem fp "assignee_id" = true
  · by_cases h2 : strStartsWith
        (pyUpper (pyStrip ((dGet? fp "assignee_id").getD PyVal.none).toStr)) "E" = true
    · -- normalized assignee starts with E: re-stored normalized
      have hout : vfpWorkOrder fp ctx = dSet fp "assignee_id"
          (.str (pyUpper (pyStrip ((dGet? fp "assignee_id").getD PyVal.none).toStr))) := by
        unfold vfpWorkOrder
        simp only []
        rw [if_pos h1, if_pos h2]
      rw [hout]
      have hget := dGet?_dSet_self fp "assignee_id"
        (.str (pyUpper (pyStrip ((dGet? fp "assignee_id").getD PyVal.none).toStr)))
      unfold vfpWorkOrder
      simp only []
      rw [if_pos (dMem_dSet_self fp "assignee_id" _)]
      rw [hget, getD_some_str_toStr, normUS_fix]
      rw [if_pos h2]
      exact dSet_self_of_get _ _ _ hget
    · by_cases h3 : dMem ctx "assignee_id" = true
      · -- assignee replaced by the context value
        obtain ⟨cv, hcv⟩ := dGet?_of_dMem ctx "assignee_id" h3
        have hout : vfpWorkOrder fp ctx = dSet fp "assignee_id"
            ((dGet? ctx "assignee_id").getD PyVal.none) := by
          unfold vfpWorkOrder
          simp only []
          rw [if_pos h1, if_neg h2, if_pos h3]
        rw [hout]
        have hget := dGet?_dSet_self fp "assignee_id"
          ((dGet? ctx "assignee_id").getD PyVal.none)
        have hcvd : (dGet? ctx "assignee_id").getD PyVal.none = cv := by
          rw [hcv]
          rfl
        unfold vfpWorkOrder
        simp only []
        rw [if_pos (dMem_dSet_self fp "assignee_id" _)]
        rw [hget]
        by_cases h4 : strStartsWith
            (pyUpper (pyStrip (((dGet? ctx "assignee_id").getD PyVal.none).toStr))) "E" = true
        · -- the context value normalizes to an E id; stability applies
          rw [show ((some ((dGet? ctx "assignee_id").getD PyVal.none)).getD
              PyVal.none) = (dGet? ctx "assignee_id").getD PyVal.none from rfl]
          rw [if_pos h4]
          have hGs : PyVal.str (pyUpper (pyStrip
              ((dGet? ctx "assignee_id").getD PyVal.none).toStr))
              = (dGet? ctx "assignee_id").getD PyVal.none := by
            rw [hcvd] at h4 ⊢
            exact (hctx cv hcv h4).symm
          rw [hGs]
          exact dSet_self_of_get _ _ _ hget
        · rw [show ((some ((dGet? ctx "assignee_id").getD PyVal.none)).getD
              PyVal.none) = (dGet? ctx "assignee_id").getD PyVal.none from rfl]
          rw [if_neg h4, if_pos h3]
          exact dSet_self_of_get _ _ _ hget
      · -- no usable assignee anywhere: dict unchanged
        have hout : vfpWorkOrder fp ctx = fp := by
          unfold vfpWorkOrder
          simp only []
          rw [if_pos h1, if_neg h2, if_neg h3]
        rw [hout]
        exact hout
  · have hout : vfpWorkOrder fp ctx = fp := by
      unfold vfpWorkOrder
      rw [if_neg h1]
    rw [hout]
    exact hout

theorem eok_bind {α β : Type} (a : α) (f : α → Except PyExc β) :
    (Except.ok a : Except PyExc α) >>= f = f a := rfl

theorem epure_bind {α β : Type} (a : α) (f : α → Except PyExc β) :
    (pure a : Except PyExc α) >>= f = f a := rfl

theorem eerr_bind {α β : Type} (e : PyExc) (f : α → Except PyExc β) :
    (Except.error e : Except PyExc α) >>= f = Except.error e := rfl

/-- A dict on which every repair of the reimbursement branch has
already converged passes through `vfpReimbursement` unchanged. -/
theorem vfpReimbursement_noop (now : PyDate) (fp ctx : PyDict)
    (P1 : dTruthy fp "employee_id" = false → dMem ctx "employee_id" = true →
      dGet? fp "employee_id" = some ((dGet? ctx "employee_id").getD PyVal.none))
    (P2 : dTruthy fp "start_date" = true →
      ∃ s, dGet? fp "start_date" = some (.str s) ∧ parseDateStr s = s)
    (P3 : dTruthy fp "end_date" = true →
      ∃ s, dGet? fp "end_date" = some (.str s) ∧ parseDateStr s = s)
    (P4 : strContains ((dGet? fp "start_date").getD (PyVal.str "")).toStr "month" = true ∨
        strContains ((dGet? fp "start_date").getD (PyVal.str "")).toStr "月" = true →
      extract_date_range now ((dGet? fp "start_date").getD (PyVal.str "")).toStr = {}) :
    vfpReimbursement now fp ctx = .ok fp := by
  simp only [vfpReimbursement]
  have h1 : (if ¬ dTruthy fp "employee_id" = true then
      (if dMem ctx "employee_id" = true then
        dSet fp "employee_id" ((dGet? ctx "employee_id").getD PyVal.none) else fp)
      else fp) = fp := by
    by_cases hT : dTruthy fp "employee_id" = true
    · rw [if_neg (not_not_intro hT)]
    · rw [if_pos hT]
      by_cases hM : dMem ctx "employee_id" = true
      · rw [if_pos hM]
        exact dSet_self_of_get _ _ _ (P1 (by simpa using hT) hM)
      · rw [if_neg hM]
  rw [h1]
  by_cases hsd : dTruthy fp "start_date" = true
  · rw [if_pos hsd]
    obtain ⟨s, hgs, hfix⟩ := P2 hsd
    have hv : (dGet? fp "start_date").getD PyVal.none = .str s := by
      rw [hgs]
      rfl
    have htr : (PyVal.str s).truthy = true := by
      obtain ⟨v, hv', ht⟩ := (dTruthy_iff fp "start_date").mp hsd
      rw [hgs] at hv'
      injection hv' with hv''
      rw [hv'']
      exact ht
    have hset : dSet fp "start_date" (PyVal.str s) = fp :=
      dSet_self_of_get _ _ _ hgs
    simp only [hv, parse_date_fixed_eval s hfix htr, eok_bind, epure_bind, hset]
    by_cases hed : dTruthy fp "end_date" = true
    · rw [if_pos hed]
      obtain ⟨t, hgt, hfixt⟩ := P3 hed
      have hvt : (dGet? fp "end_date").getD PyVal.none = .str t := by
        rw [hgt]
        rfl
      have htrt : (PyVal.str t).truthy = true := by
        obtain ⟨v, hv', ht⟩ := (dTruthy_iff fp "end_date").mp hed
        rw [hgt] at hv'
        injection hv' with hv''
        rw [hv'']
        exact ht
      have hsett : dSet fp "end_date" (PyVal.str t) = fp :=
        dSet_self_of_get _ _ _ hgt
      simp only [hvt, parse_date_fixed_eval t hfixt htrt, eok_bind, epure_bind, hsett]
      by_cases hmc : strContains ((dGet? fp "start_date").getD (PyVal.str "")).toStr
            "month" = true ∨
          strContains ((dGet? fp "start_date").getD (PyVal.str "")).toStr "月" = true
      · rw [if_pos hmc, P4 hmc]
        rfl
      · rw [if_neg hmc]
        rfl
    · rw [if_neg hed]
      try simp only [epure_bind]
      by_cases hmc : strContains ((dGet? fp "start_date").getD (PyVal.str "")).toStr
            "month" = true ∨
          strContains ((dGet? fp "start_date").getD (PyVal.str "")).toStr "月" = true
      · rw [if_pos hmc, P4 hmc]
        rfl
      · rw [if_neg hmc]
        rfl
  · rw [if_neg hsd]
    try simp only [epure_bind]
    by_cases hed : dTruthy fp "end_date" = true
    · rw [if_pos hed]
      obtain ⟨t, hgt, hfixt⟩ := P3 hed
      have hvt : (dGet? fp "end_date").getD PyVal.none = .str t := by
        rw [hgt]
        rfl
      have htrt : (PyVal.str t).truthy = true := by
        obtain ⟨v, hv', ht⟩ := (dTruthy_iff fp "end_date").mp hed
        rw [hgt] at hv'
        injection hv' with hv''
        rw [hv'']
        exact ht
      have hsett : dSet fp "end_date" (PyVal.str t) = fp :=
        dSet_self_of_get _ _ _ hgt
      simp only [hvt, parse_date_fixed_eval t hfixt htrt, eok_bind, epure_bind, hsett]
      by_cases hmc : strContains ((dGet? fp "start_date").getD (PyVal.str "")).toStr
            "month" = true ∨
          strContains ((dGet? fp "start_date").getD (PyVal.str "")).toStr "月" = true
      · rw [if_pos hmc, P4 hmc]
        rfl
      · rw [if_neg hmc]
        rfl
    · rw [if_neg hed]
      try simp only [epure_bind]
      by_cases hmc : strContains ((dGet? fp "start_date").getD (PyVal.str "")).toStr
            "month" = true ∨
          strContains ((dGet? fp "start_date").getD (PyVal.str "")).toStr "月" = true
      · rw [if_pos hmc, P4 hmc]
        rfl
      · rw [if_neg hmc]
        rfl

/-- Anatomy of a successful first pass of the reimbursement branch:
the returned dict satisfies the convergence conditions of
`vfpReimbursement_noop`. -/
theorem vfpReimbursement_ok_props (now : PyDate) (fp ctx out : PyDict)
    (hy : now.year ≤ 9999) (hm' : now.month ≤ 12)
    (h : vfpReimbursement now fp ctx = .ok out) :
    (dTruthy out "employee_id" = false → dMem ctx "employee_id" = true →
      dGet? out "employee_id" = some ((dGet? ctx "employee_id").getD PyVal.none)) ∧
    (dTruthy out "start_date" = true →
      ∃ s, dGet? out "start_date" = some (.str s) ∧ parseDateStr s = s) ∧
    (dTruthy out "end_date" = true →
      ∃ s, dGet? out "end_date" = some (.str s) ∧ parseDateStr s = s) ∧
    (strContains ((dGet? out "start_date").getD (PyVal.str "")).toStr "month" = true ∨
        strContains ((dGet? out "start_date").getD (PyVal.str "")).toStr "月" = true →
      extract_date_range now ((dGet? out "start_date").getD (PyVal.str "")).toStr = {}) := by
  simp only [vfpReimbursement] at h
  generalize hfp1 : (if ¬ dTruthy fp "employee_id" = true then
      (if dMem ctx "employee_id" = true then
        dSet fp "employee_id" ((dGet? ctx "employee_id").getD PyVal.none) else fp)
      else fp) = fp1 at h
  have prop1 : dTruthy fp1 "employee_id" = false → dMem ctx "employee_id" = true →
      dGet? fp1 "employee_id" = some ((dGet? ctx "employee_id").getD PyVal.none) := by
    intro hT hM
    rw [← hfp1]
    rw [← hfp1] at hT
    by_cases hT0 : dTruthy fp "employee_id" = true
    · rw [if_neg (not_not_intro hT0)] at hT
      rw [hT] at hT0
      exact Bool.noConfusion hT0
    · rw [if_pos hT0, if_pos hM] at hT ⊢
      exact dGet?_dSet_self _ _ _
  by_cases hsd1 : dTruthy fp1 "start_date" = true
  · rw [if_pos hsd1] at h
    cases hpd : parse_date ((dGet? fp1 "start_date").getD PyVal.none) with
    | error e2 =>
        rw [hpd, eerr_bind] at h
        exact Except.noConfusion h
    | ok w =>
        rw [hpd] at h
        simp only [eok_bind, epure_bind] at h
        by_cases hed : dTruthy (dSet fp1 "start_date" w) "end_date" = true
        · rw [if_pos hed] at h
          cases hpd2 : parse_date ((dGet? (dSet fp1 "start_date" w) "end_date").getD PyVal.none) with
          | error e2 =>
              rw [hpd2, eerr_bind] at h
              exact Except.noConfusion h
          | ok w2 =>
              rw [hpd2] at h
              simp only [eok_bind, epure_bind] at h
              have hg3sd : dGet? (dSet (dSet fp1 "start_date" w) "end_date" w2) "start_date" = some w := by
                rw [dGet?_dSet_ne _ _ _ _ (by decide)]
                exact dGet?_dSet_self _ _ _
              have hGsd : dTruthy (dSet (dSet fp1 "start_date" w) "end_date" w2) "start_date" = true →
                  ∃ s, dGet? (dSet (dSet fp1 "start_date" w) "end_date" w2) "start_date" = some (PyVal.str s) ∧ parseDateStr s = s := by
                intro h2
                obtain ⟨v, hv, htv⟩ := (dTruthy_iff _ _).mp h2
                rw [hg3sd] at hv
                injection hv with hv'
                obtain ⟨s, hws, hsfix⟩ := parse_date_val_fixed _ _ hpd (by rw [hv']; exact htv)
                exact ⟨s, by rw [hg3sd, hws], hsfix⟩
              have hg3ed : dGet? (dSet (dSet fp1 "start_date" w) "end_date" w2) "end_date" = some w2 :=
                dGet?_dSet_self _ _ _
              have hGed : dTruthy (dSet (dSet fp1 "start_date" w) "end_date" w2) "end_date" = true →
                  ∃ s, dGet? (dSet (dSet fp1 "start_date" w) "end_date" w2) "end_date" = some (PyVal.str s) ∧ parseDateStr s = s := by
                intro h2
                obtain ⟨v, hv, htv⟩ := (dTruthy_iff _ _).mp h2
                rw [hg3ed] at hv
                injection hv with hv'
                obtain ⟨s, hws, hsfix⟩ := parse_date_val_fixed _ _ hpd2 (by rw [hv']; exact htv)
                exact ⟨s, by rw [hg3ed, hws], hsfix⟩
              have hG1 : dGet? (dSet (dSet fp1 "start_date" w) "end_date" w2) "employee_id" = dGet? fp1 "employee_id" := by
                rw [dGet?_dSet_ne _ _ _ _ (by decide), dGet?_dSet_ne _ _ _ _ (by decide)]
              by_cases hmc : strContains ((dGet? (dSet (dSet fp1 "start_date" w) "end_date" w2) "start_date").getD (PyVal.str "")).toStr "month" = true ∨
                  strContains ((dGet? (dSet (dSet fp1 "start_date" w) "end_date" w2) "start_date").getD (PyVal.str "")).toStr "月" = true
              · rw [if_pos hmc] at h
                rcases extract_shape now (((dGet? (dSet (dSet fp1 "start_date" w) "end_date" w2) "start_date").getD (PyVal.str "")).toStr) hy hm' with hsh | ⟨s, e, mo, yr, hsh, goods, goode⟩
                · rw [hsh] at h
                  simp only [] at h
                  have h' : Except.ok (dSet (dSet fp1 "start_date" w) "end_date" w2) = Except.ok out := h
                  injection h' with hout
                  rw [← hout]
                  refine ⟨?_, hGsd, hGed, fun hc => hsh⟩
                  intro hT hM
                  rw [hG1]
                  refine prop1 ?_ hM
                  rw [← dTruthy_congr hG1]
                  exact hT
                · rw [hsh] at h
                  simp only [] at h
                  have h' : Except.ok (dSet (dSet (dSet (dSet fp1 "start_date" w) "end_date" w2) "start_date" (PyVal.str s)) "end_date" (PyVal.str e)) = Except.ok out := h
                  injection h' with hout
                  rw [← hout]
                  have hdgsd : dGet? (dSet (dSet (dSet (dSet fp1 "start_date" w) "end_date" w2) "start_date" (PyVal.str s)) "end_date" (PyVal.str e)) "start_date" = some (PyVal.str s) := by
                    rw [dGet?_dSet_ne _ _ _ _ (by decide)]
                    exact dGet?_dSet_self _ _ _
                  have hdged : dGet? (dSet (dSet (dSet (dSet fp1 "start_date" w) "end_date" w2) "start_date" (PyVal.str s)) "end_date" (PyVal.str e)) "end_date" = some (PyVal.str e) :=
                    dGet?_dSet_self _ _ _
                  have hss : ((dGet? (dSet (dSet (dSet (dSet fp1 "start_date" w) "end_date" w2) "start_date" (PyVal.str s)) "end_date" (PyVal.str e)) "start_date").getD (PyVal.str "")).toStr = s := by
                    rw [hdgsd]
                    rfl
                  refine ⟨?_, fun h2 => ⟨s, hdgsd, goods.1⟩, fun h2 => ⟨e, hdged, goode.1⟩, ?_⟩
                  · intro hT hM
                    have hpres : dGet? (dSet (dSet (dSet (dSet fp1 "start_date" w) "end_date" w2) "start_date" (PyVal.str s)) "end_date" (PyVal.str e)) "employee_id" = dGet? fp1 "employee_id" := by
                      rw [dGet?_dSet_ne _ _ _ _ (by decide), dGet?_dSet_ne _ _ _ _ (by decide)]
                      exact hG1
                    rw [hpres]
                    refine prop1 ?_ hM
                    rw [← dTruthy_congr hpres]
                    exact hT
                  · intro hc
                    rw [hss] at hc
                    rcases hc with hc | hc
                    · rw [goods.2.2] at hc
                      exact Bool.noConfusion hc
                    · rw [goods.2.1] at hc
                      exact Bool.noConfusion hc
              · rw [if_neg hmc] at h
                have h' : Except.ok (dSet (dSet fp1 "start_date" w) "end_date" w2) = Except.ok out := h
                injection h' with hout
                rw [← hout]
                refine ⟨?_, hGsd, hGed, fun hc => absurd hc hmc⟩
                intro hT hM
                rw [hG1]
                refine prop1 ?_ hM
                rw [← dTruthy_congr hG1]
                exact hT
        · rw [if_neg hed] at h
          try simp only [epure_bind] at h
          have hg3sd : dGet? (dSet fp1 "start_date" w) "start_date" = some w :=
            dGet?_dSet_self _ _ _
          have hGsd : dTruthy (dSet fp1 "start_date" w) "start_date" = true →
              ∃ s, dGet? (dSet fp1 "start_date" w) "start_date" = some (PyVal.str s) ∧ parseDateStr s = s := by
            intro h2
            obtain ⟨v, hv, htv⟩ := (dTruthy_iff _ _).mp h2
            rw [hg3sd] at hv
            injection hv with hv'
            obtain ⟨s, hws, hsfix⟩ := parse_date_val_fixed _ _ hpd (by rw [hv']; exact htv)
            exact ⟨s, by rw [hg3sd, hws], hsfix⟩
          have hGed : dTruthy (dSet fp1 "start_date" w) "end_date" = true →
              ∃ s, dGet? (dSet fp1 "start_date" w) "end_date" = some (PyVal.str s) ∧ parseDateStr s = s :=
            fun h2 => absurd h2 hed
          have hG1 : dGet? (dSet fp1 "start_date" w) "employee_id" = dGet? fp1 "employee_id" := by
            rw [dGet?_dSet_ne _ _ _ _ (by decide)]
          by_cases hmc : strContains ((dGet? (dSet fp1 "start_date" w) "start_date").getD (PyVal.str "")).toStr "month" = true ∨
              strContains ((dGet? (dSet fp1 "start_date" w) "start_date").getD (PyVal.str "")).toStr "月" = true
          · rw [if_pos hmc] at h
            rcases extract_shape now (((dGet? (dSet fp1 "start_date" w) "start_date").getD (PyVal.str "")).toStr) hy hm' with hsh | ⟨s, e, mo, yr, hsh, goods, goode⟩
            · rw [hsh] at h
              simp only [] at h
              have h' : Except.ok (dSet fp1 "start_date" w) = Except.ok out := h
              injection h' with hout
              rw [← hout]
              refine ⟨?_, hGsd, hGed, fun hc => hsh⟩
              intro hT hM
              rw [hG1]
              refine prop1 ?_ hM
              rw [← dTruthy_congr hG1]
              exact hT
            · rw [hsh] at h
              simp only [] at h
              have h' : Except.ok (dSet (dSet (dSet fp1 "start_date" w) "start_date" (PyVal.str s)) "end_date" (PyVal.str e)) = Except.ok out := h
              injection h' with hout
              rw [← hout]
              have hdgsd : dGet? (dSet (dSet (dSet fp1 "start_date" w) "start_date" (PyVal.str s)) "end_date" (PyVal.str e)) "start_date" = some (PyVal.str s) := by
                rw [dGet?_dSet_ne _ _ _ _ (by decide)]
                exact dGet?_dSet_self _ _ _
              have hdged : dGet? (dSet (dSet (dSet fp1 "start_date" w) "start_date" (PyVal.str s)) "end_date" (PyVal.str e)) "end_date" = some (PyVal.str e) :=
                dGet?_dSet_self _ _ _
              have hss : ((dGet? (dSet (dSet (dSet fp1 "start_date" w) "start_date" (PyVal.str s)) "end_date" (PyVal.str e)) "start_date").getD (PyVal.str "")).toStr = s := by
                rw [hdgsd]
                rfl
              refine ⟨?_, fun h2 => ⟨s, hdgsd, goods.1⟩, fun h2 => ⟨e, hdged, goode.1⟩, ?_⟩
              · intro hT hM
                have hpres : dGet? (dSet (dSet (dSet fp1 "start_date" w) "start_date" (PyVal.str s)) "end_date" (PyVal.str e)) "employee_id" = dGet? fp1 "employee_id" := by
                  rw [dGet?_dSet_ne _ _ _ _ (by decide), dGet?_dSet_ne _ _ _ _ (by decide)]
                  exact hG1
                rw [hpres]
                refine prop1 ?_ hM
                rw [← dTruthy_congr hpres]
                exact hT
              · intro hc
                rw [hss] at hc
                rcases hc with hc | hc
                · rw [goods.2.2] at hc
                  exact Bool.noConfusion hc
                · rw [goods.2.1] at hc
                  exact Bool.noConfusion hc
          · rw [if_neg hmc] at h
            have h' : Except.ok (dSet fp1 "start_date" w) = Except.ok out := h
            injection h' with hout
            rw [← hout]
            refine ⟨?_, hGsd, hGed, fun hc => absurd hc hmc⟩
            intro hT hM
            rw [hG1]
            refine prop1 ?_ hM
            rw [← dTruthy_congr hG1]
            exact hT
  · rw [if_neg hsd1] at h
    simp only [epure_bind] at h
    by_cases hed : dTruthy fp1 "end_date" = true
    · rw [if_pos hed] at h
      cases hpd2 : parse_date ((dGet? fp1 "end_date").getD PyVal.none) with
      | error e2 =>
          rw [hpd2, eerr_bind] at h
          exact Except.noConfusion h
      | ok w2 =>
          rw [hpd2] at h
          simp only [eok_bind, epure_bind] at h
          have hGsd : dTruthy (dSet fp1 "end_date" w2) "start_date" = true →
              ∃ s, dGet? (dSet fp1 "end_date" w2) "start_date" = some (PyVal.str s) ∧ parseDateStr s = s := by
            intro h2
            have hpres : dGet? (dSet fp1 "end_date" w2) "start_date" = dGet? fp1 "start_date" :=
              dGet?_dSet_ne _ _ _ _ (by decide)
            rw [dTruthy_congr hpres] at h2
            exact absurd h2 hsd1
          have hg3ed : dGet? (dSet fp1 "end_date" w2) "end_date" = some w2 :=
            dGet?_dSet_self _ _ _
          have hGed : dTruthy (dSet fp1 "end_date" w2) "end_date" = true →
              ∃ s, dGet? (dSet fp1 "end_date" w2) "end_date" = some (PyVal.str s) ∧ parseDateStr s = s := by
            intro h2
            obtain ⟨v, hv, htv⟩ := (dTruthy_iff _ _).mp h2
            rw [hg3ed] at hv
            injection hv with hv'
            obtain ⟨s, hws, hsfix⟩ := parse_date_val_fixed _ _ hpd2 (by rw [hv']; exact htv)
            exact ⟨s, by rw [hg3ed, hws], hsfix⟩
          have hG1 : dGet? (dSet fp1 "end_date" w2) "employee_id" = dGet? fp1 "employee_id" := by
            rw [dGet?_dSet_ne _ _ _ _ (by decide)]
          by_cases hmc : strContains ((dGet? (dSet fp1 "end_date" w2) "start_date").getD (PyVal.str "")).toStr "month" = true ∨
              strContains ((dGet? (dSet fp1 "end_date" w2) "start_date").getD (PyVal.str "")).toStr "月" = true
          · rw [if_pos hmc] at h
            rcases extract_shape now (((dGet? (dSet fp1 "end_date" w2) "start_date").getD (PyVal.str "")).toStr) hy hm' with hsh | ⟨s, e, mo, yr, hsh, goods, goode⟩
            · rw [hsh] at h
              simp only [] at h
              have h' : Except.ok (dSet fp1 "end_date" w2) = Except.ok out := h
              injection h' with hout
              rw [← hout]
              refine ⟨?_, hGsd, hGed, fun hc => hsh⟩
              intro hT hM
              rw [hG1]
              refine prop1 ?_ hM
              rw [← dTruthy_congr hG1]
              exact hT
            · rw [hsh] at h
              simp only [] at h
              have h' : Except.ok (dSet (dSet (dSet fp1 "end_date" w2) "start_date" (PyVal.str s)) "end_date" (PyVal.str e)) = Except.ok out := h
              injection h' with hout
              rw [← hout]
              have hdgsd : dGet? (dSet (dSet (dSet fp1 "end_date" w2) "start_date" (PyVal.str s)) "end_date" (PyVal.str e)) "start_date" = some (PyVal.str s) := by
                rw [dGet?_dSet_ne _ _ _ _ (by decide)]
                exact dGet?_dSet_self _ _ _
              have hdged : dGet? (dSet (dSet (dSet fp1 "end_date" w2) "start_date" (PyVal.str s)) "end_date" (PyVal.str e)) "end_date" = some (PyVal.str e) :=
                dGet?_dSet_self _ _ _
              have hss : ((dGet? (dSet (dSet (dSet fp1 "end_date" w2) "start_date" (PyVal.str s)) "end_date" (PyVal.str e)) "start_date").getD (PyVal.str "")).toStr = s := by
                rw [hdgsd]
                rfl
              refine ⟨?_, fun h2 => ⟨s, hdgsd, goods.1⟩, fun h2 => ⟨e, hdged, goode.1⟩, ?_⟩
              · intro hT hM
                have hpres : dGet? (dSet (dSet (dSet fp1 "end_date" w2) "start_date" (PyVal.str s)) "end_date" (PyVal.str e)) "employee_id" = dGet? fp1 "employee_id" := by
                  rw [dGet?_dSet_ne _ _ _ _ (by decide), dGet?_dSet_ne _ _ _ _ (by decide)]
                  exact hG1
                rw [hpres]
                refine prop1 ?_ hM
                rw [← dTruthy_congr hpres]
                exact hT
              · intro hc
                rw [hss] at hc
                rcases hc with hc | hc
                · rw [goods.2.2] at hc
                  exact Bool.noConfusion hc
                · rw [goods.2.1] at hc
                  exact Bool.noConfusion hc
          · rw [if_neg hmc] at h
            have h' : Except.ok (dSet fp1 "end_date" w2) = Except.ok out := h
            injection h' with hout
            rw [← hout]
            refine ⟨?_, hGsd, hGed, fun hc => absurd hc hmc⟩
            intro hT hM
            rw [hG1]
            refine prop1 ?_ hM
            rw [← dTruthy_congr hG1]
            exact hT
    · rw [if_neg hed] at h
      have hGsd : dTruthy fp1 "start_date" = true →
          ∃ s, dGet? fp1 "start_date" = some (PyVal.str s) ∧ parseDateStr s = s :=
        fun h2 => absurd h2 hsd1
      have hGed : dTruthy fp1 "end_date" = true →
          ∃ s, dGet? fp1 "end_date" = some (PyVal.str s) ∧ parseDateStr s = s :=
        fun h2 => absurd h2 hed
      have hG1 : dGet? fp1 "employee_id" = dGet? fp1 "employee_id" := rfl
      by_cases hmc : strContains ((dGet? (fp1) "start_date").getD (PyVal.str "")).toStr "month" = true ∨
          strContains ((dGet? (fp1) "start_date").getD (PyVal.str "")).toStr "月" = true
      · rw [if_pos hmc] at h
        rcases extract_shape now (((dGet? (fp1) "start_date").getD (PyVal.str "")).toStr) hy hm' with hsh | ⟨s, e, mo, yr, hsh, goods, goode⟩
        · rw [hsh] at h
          simp only [] at h
          have h' : Except.ok (fp1) = Except.ok out := h
          injection h' with hout
          rw [← hout]
          refine ⟨?_, hGsd, hGed, fun hc => hsh⟩
          intro hT hM
          rw [hG1]
          refine prop1 ?_ hM
          rw [← dTruthy_congr hG1]
          exact hT
        · rw [hsh] at h
          simp only [] at h
          have h' : Except.ok (dSet (dSet (fp1) "start_date" (PyVal.str s)) "end_date" (PyVal.str e)) = Except.ok out := h
          injection h' with hout
          rw [← hout]
          have hdgsd : dGet? (dSet (dSet (fp1) "start_date" (PyVal.str s)) "end_date" (PyVal.str e)) "start_date" = some (PyVal.str s) := by
            rw [dGet?_dSet_ne _ _ _ _ (by decide)]
            exact dGet?_dSet_self _ _ _
          have hdged : dGet? (dSet (dSet (fp1) "start_date" (PyVal.str s)) "end_date" (PyVal.str e)) "end_date" = some (PyVal.str e) :=
            dGet?_dSet_self _ _ _
          have hss : ((dGet? (dSet (dSet (fp1) "start_date" (PyVal.str s)) "end_date" (PyVal.str e)) "start_date").getD (PyVal.str "")).toStr = s := by
            rw [hdgsd]
            rfl
          refine ⟨?_, fun h2 => ⟨s, hdgsd, goods.1⟩, fun h2 => ⟨e, hdged, goode.1⟩, ?_⟩
          · intro hT hM
            have hpres : dGet? (dSet (dSet (fp1) "start_date" (PyVal.str s)) "end_date" (PyVal.str e)) "employee_id" = dGet? fp1 "employee_id" := by
              rw [dGet?_dSet_ne _ _ _ _ (by decide), dGet?_dSet_ne _ _ _ _ (by decide)]
              try exact hG1
            rw [hpres]
            refine prop1 ?_ hM
            rw [← dTruthy_congr hpres]
            exact hT
          · intro hc
            rw [hss] at hc
            rcases hc with hc | hc
            · rw [goods.2.2] at hc
              exact Bool.noConfusion hc
            · rw [goods.2.1] at hc
              exact Bool.noConfusion hc
      · rw [if_neg hmc] at h
        have h' : Except.ok (fp1) = Except.ok out := h
        injection h' with hout
        rw [← hout]
        refine ⟨?_, hGsd, hGed, fun hc => absurd hc hmc⟩
        intro hT hM
        rw [hG1]
        refine prop1 ?_ hM
        rw [← dTruthy_congr hG1]
        exact hT

theorem vfpReimbursement_idem (now : PyDate) (fp ctx out : PyDict)
    (hy : now.year ≤ 9999) (hm' : now.month ≤ 12)
    (h : vfpReimbursement now fp ctx = .ok out) :
    vfpReimbursement now out ctx = .ok out := by
  obtain ⟨P1, P2, P3, P4⟩ := vfpReimbursement_ok_props now fp ctx out hy hm' h
  exact vfpReimbursement_noop now out ctx P1 P2 P3 P4

theorem emap_ok {α β : Type} (f : α → β) (a : α) :
    Except.map f (Except.ok a : Except PyExc α) = Except.ok (f a) := rfl

theorem emap_err {α β : Type} (f : α → β) (e : PyExc) :
    Except.map f (Except.error e : Except PyExc α) = Except.error e := rfl

/-- C6 (counterexample): the Parameter Validator is not idempotent as
claimed.  For `create_work_order` with a context assignee `"e001"` and
a non-`E` assignee `"张三"` in the arguments, the first pass copies the
raw context value `"e001"` into the arguments; a second pass normalizes
it to `"E001"`, so the second application changes its input again. -/
theorem validate_params_idem_cex :
    validate_and_fix_params ⟨2024, 5, 15⟩ "create_work_order"
        [("assignee_id", PyVal.str "张三")] [("assignee_id", PyVal.str "e001")]
      = .ok [("assignee_id", PyVal.str "e001")] ∧
    validate_and_fix_params ⟨2024, 5, 15⟩ "create_work_order"
        [("assignee_id", PyVal.str "e001")] [("assignee_id", PyVal.str "e001")]
      = .ok [("assignee_id", PyVal.str "E001")] ∧
    ([("assignee_id", PyVal.str "E001")] : PyDict) ≠ [("assignee_id", PyVal.str "e001")] :=
  ⟨rfl, rfl, by decide⟩

/-- C6 (amended): for a valid current date (month 1–12, four-digit
year at most 9999) and a context whose `assignee_id`, if it normalizes
to an `E`-prefixed identifier, is already stored normalized, the
Parameter Validator is idempotent: a second application to an output it
returned successfully returns that output unchanged, for every tool
name and argument dict. -/
theorem validate_params_idem_amended (now : PyDate) (tool_name : String)
    (params context fixed : PyDict)
    (hm : 1 ≤ now.month) (hm' : now.month ≤ 12) (hy : now.year ≤ 9999)
    (hctx : ctxAssigneeStable context)
    (h : validate_and_fix_params now tool_name params context = .ok fixed) :
    validate_and_fix_params now tool_name fixed context = .ok fixed := by
  simp only [validate_and_fix_params, validateAndFixParamsState] at h ⊢
  by_cases h1 : tool_name = "query_employee_info"
  · rw [if_pos h1] at h ⊢
    simp only [epure_bind, emap_ok] at h ⊢
    injection h with h'
    rw [← h', vfpEmployeeInfo_idem]
    rfl
  · rw [if_neg h1] at h ⊢
    by_cases h2 : tool_name = "query_reimbursement_summary" ∨
        tool_name = "query_reimbursement_records" ∨
        tool_name = "query_reimbursement_status"
    · rw [if_pos h2] at h ⊢
      cases hr : vfpReimbursement now params context with
      | error e =>
          rw [hr, eerr_bind, emap_err] at h
          exact Except.noConfusion h
      | ok fpo =>
          rw [hr, eok_bind] at h
          have h9 : Except.ok fpo = Except.ok fixed := h
          injection h9 with h'
          rw [← h']
          rw [vfpReimbursement_idem now params context fpo hy hm' hr, eok_bind]
          rfl
    · rw [if_neg h2] at h ⊢
      by_cases h3 : tool_name = "create_work_order"
      · rw [if_pos h3] at h ⊢
        simp only [epure_bind, emap_ok] at h ⊢
        injection h with h'
        rw [← h', vfpWorkOrder_idem params context hctx]
        rfl
      · rw [if_neg h3] at h ⊢
        simp only [epure_bind, emap_ok] at h ⊢
        injection h with h'
        rw [← h']
        rfl

/-- C6 (witness for the amended theorem): a reimbursement query whose
start date the first pass rewrites to `2024-03-05` is returned
unchanged by a second pass. -/
theorem validate_params_idem_amended_witness :
    validate_and_fix_params ⟨2024, 5, 15⟩ "query_reimbursement_summary"
        [("employee_id", PyVal.str "E001"), ("start_date", PyVal.str "2024-3-5")] []
      = .ok [("employee_id", PyVal.str "E001"), ("start_date", PyVal.str "2024-03-05")] ∧
    validate_and_fix_params ⟨2024, 5, 15⟩ "query_reimbursement_summary"
        [("employee_id", PyVal.str "E001"), ("start_date", PyVal.str "2024-03-05")] []
      = .ok [("employee_id", PyVal.str "E001"), ("start_date", PyVal.str "2024-03-05")] :=
  ⟨rfl, validate_params_idem_amended ⟨2024, 5, 15⟩ "query_reimbursement_summary"
    [("employee_id", PyVal.str "E001"), ("start_date", PyVal.str "2024-3-5")] []
    [("employee_id", PyVal.str "E001"), ("start_date", PyVal.str "2024-03-05")]
    (by decide) (by decide) (by decide) (fun v h => Option.noConfusion h) rfl⟩

end FinAssist
